import Mathlib

/-!
Shallow embedding of the in-memory text model of the calli-glyph terminal
editor (`src/app.rs`).  Lines are lists of Unicode scalar values
(`List Char`), mirroring the source's `line.chars().collect::<Vec<char>>()`
view.  The `i16` cursor fields are embedded as `Int` with the source's
explicit clamps; the `usize`/`i16` casts of the source are modelled exactly
(two's complement) by `usizeCast` and `i16OfNat`.  Every operation returns
`Option AppState`: `none` marks exactly the inputs on which the Rust code
panics (out-of-range `Vec` indexing, invalid `drain`/`fill` ranges,
`clamp` with inverted bounds) or fails to terminate (the line-padding
loops run on a negative index cast to `usize`).
-/

namespace CalliGlyph

/-- Two's-complement value of `v as usize` for an `i16`-typed value `v`
(64-bit `usize`). -/
def usizeCast (v : Int) : Nat := (v % (2 ^ 64 : Int)).toNat

/-- Two's-complement value of `n as i16` for a `usize`-typed value `n`. -/
def i16OfNat (n : Nat) : Int :=
  if (n : Int) % 65536 ≥ 32768 then (n : Int) % 65536 - 65536 else (n : Int) % 65536

/-- Rust `v.clamp(0, i16::MAX)`. -/
def clampI16 (v : Int) : Int := max 0 (min v 32767)

/-- Rust `Vec::drain(a..b)` on the remaining vector: fails (panics) unless
`a ≤ b ≤ len`; otherwise removes the span `[a, b)`. -/
def drainO (a b : Nat) (l : List Char) : Option (List Char) :=
  if a ≤ b ∧ b ≤ l.length then some (l.take a ++ l.drop b) else none

/-- Rust `slice[a..b].fill(c)`: fails (panics) unless `a ≤ b ≤ len`;
otherwise overwrites the span `[a, b)` with `c`, preserving length. -/
def fillO (a b : Nat) (c : Char) (l : List Char) : Option (List Char) :=
  if a ≤ b ∧ b ≤ l.length then
    some (l.take a ++ List.replicate (b - a) c ++ l.drop b) else none

/-- Rust `Vec::insert(i, c)`: fails (panics) unless `i ≤ len`. -/
def insertO (i : Nat) (c : Char) (l : List Char) : Option (List Char) :=
  if i ≤ l.length then some (l.take i ++ c :: l.drop i) else none

/-- Rust `Vec::remove(i)`: fails (panics) unless `i < len`. -/
def removeO (i : Nat) (l : List Char) : Option (List Char) :=
  if i < l.length then some (l.take i ++ l.drop (i + 1)) else none

/-- Cursor position stored in a selection endpoint (`CursorPosition` in
`src/app.rs`, with `usize` fields). -/
structure CursorPosition where
  x : Nat
  y : Nat
deriving DecidableEq

/-- The editing-relevant state of `App` in `src/app.rs`.  Fields that are
irrelevant to the text model (`running`, `active_area`, `command_input`,
`file_path`, blink timing, saved editor cursor) are omitted; every field
used by the embedded operations is kept with its source name. -/
structure AppState where
  editor_content : List (List Char)
  cursor_x : Int
  cursor_y : Int
  visual_cursor_x : Int
  scroll_offset : Int
  terminal_height : Int
  text_selection_start : Option CursorPosition
  text_selection_end : Option CursorPosition
  copied_text : List (List Char)
deriving DecidableEq

/-- Modelled from the spec: the tab-stop width constant
`editor_settings::TAB_WIDTH` lives in the config module, which is absent
from `src/`; spec §4.2/§8 fix it to 4. -/
def TAB_WIDTH : Nat := 4

/-- One step of the visual-column scan of `calculate_visual_x`. -/
def visualAdvance (acc : Nat) (c : Char) : Nat :=
  if c = '\t' then acc + (TAB_WIDTH - acc % TAB_WIDTH) else acc + 1

/-- The visual-column computation of `App::calculate_visual_x`: scan the
line, stopping at index `cursor_x as usize` (a negative cursor casts to a
huge index, so the whole line is scanned, as in the source). -/
def calculate_visual_x (line : List Char) (cursor_x : Int) : Nat :=
  (line.take (usizeCast cursor_x)).foldl visualAdvance 0

/-- Rust `vec[i]` read access on the line buffer. -/
def lineAt (content : List (List Char)) (i : Nat) : Option (List Char) :=
  content[i]?

/-- Character count of line `i`, with 0 for an absent line. -/
def lineLenAt (content : List (List Char)) (i : Nat) : Nat :=
  (content[i]?.getD []).length

/-- The `while len <= target { push(String::new()) }` padding loop of the
source: extends the buffer with empty lines until index `target` is valid. -/
def extendLinesUntilGt (content : List (List Char)) (target : Nat) :
    List (List Char) :=
  if content.length ≤ target then
    content ++ List.replicate (target + 1 - content.length) []
  else content

/-- Recomputation `self.visual_cursor_x = self.calculate_visual_x() as i16`,
which indexes `editor_content[cursor_y as usize]` (panics if absent). -/
def recompute_visual (s : AppState) : Option AppState :=
  match lineAt s.editor_content (usizeCast s.cursor_y) with
  | none => none
  | some line =>
      some { s with visual_cursor_x := i16OfNat (calculate_visual_x line s.cursor_x) }

/-- Shared tail of `move_cursor_in_editor`: the scroll-band check followed
by the final clamps and the visual recomputation.  `cursor_x.clamp(0,
max_x_pos)` panics when `max_x_pos < 0` (an `i16`-wrapped huge line). -/
def moveTail (s : AppState) (y max_x_pos : Int) : Option AppState :=
  if (y = 1 ∧ s.cursor_y = s.scroll_offset + (s.terminal_height - 2)) ∨
     (y = -1 ∧ s.cursor_y = s.scroll_offset) then
    some { s with scroll_offset := clampI16 (s.scroll_offset + y) }
  else if max_x_pos < 0 then none
  else
    recompute_visual
      { s with cursor_x := max 0 (min s.cursor_x max_x_pos),
               cursor_y := clampI16 (s.cursor_y + y) }

/-- The `Moving Left` block of `move_cursor_in_editor` and everything after
it (reached after the `Moving Right` block fell through). -/
def moveLeftPart (s : AppState) (x y max_x_pos : Int) : Option AppState :=
  if x < 0 ∧ s.cursor_x > 0 then
    moveTail { s with cursor_x := s.cursor_x + x } y max_x_pos
  else if s.cursor_x = 0 ∧ x = -1 ∧ s.cursor_y ≠ 0 then
    match lineAt s.editor_content (usizeCast (s.cursor_y - 1)) with
    | none => none
    | some prev =>
        recompute_visual
          { s with cursor_y := s.cursor_y - 1, cursor_x := i16OfNat prev.length }
  else moveTail s y max_x_pos

/-- `App::move_cursor_in_editor(x, y)` of `src/app.rs`: early return for an
up-motion on the first line; padding of the buffer up to the destination
line (which cannot terminate when `cursor_y + y` is negative, hence
`none`); the right/left motion blocks with their line-wrap early returns;
the scroll-band diversion; and the final clamps. -/
def move_cursor_in_editor (s : AppState) (x y : Int) : Option AppState :=
  if s.cursor_y = 0 ∧ y = -1 then some s
  else if s.cursor_y + y < 0 then none
  else
    let dest : Nat := (s.cursor_y + y).toNat
    let content := extendLinesUntilGt s.editor_content dest
    let max_x_pos : Int := i16OfNat (lineLenAt content dest)
    let s0 := { s with editor_content := content }
    if x > 0 ∧ s0.cursor_x < max_x_pos then
      moveLeftPart { s0 with cursor_x := s0.cursor_x + x } x y max_x_pos
    else if x = 1 then
      match lineAt content (usizeCast s0.cursor_y) with
      | none => none
      | some cur =>
          if s0.cursor_x ≥ i16OfNat cur.length ∧
             content.length > usizeCast s0.cursor_y + 1 then
            recompute_visual { s0 with cursor_y := s0.cursor_y + 1, cursor_x := 0 }
          else moveLeftPart s0 x y max_x_pos
    else moveLeftPart s0 x y max_x_pos

/-- A convenient literal builder for states in concrete scenarios. -/
def mkState (content : List String) (cx cy : Int) : AppState :=
  { editor_content := content.map String.toList
    cursor_x := cx
    cursor_y := cy
    visual_cursor_x := 0
    scroll_offset := 0
    terminal_height := 0
    text_selection_start := none
    text_selection_end := none
    copied_text := [] }

example :
    (move_cursor_in_editor (mkState ["Hello World"] 0 0) 1 0).map
      (fun s => (s.cursor_x, s.cursor_y)) = some (1, 0) := by decide

example :
    (move_cursor_in_editor (mkState ["Hello World"] 0 0) (-1) 0).map
      (fun s => (s.cursor_x, s.cursor_y)) = some (0, 0) := by decide

example :
    (move_cursor_in_editor (mkState [] 0 0) 1 0).map
      (fun s => (s.cursor_x, s.cursor_y)) = some (0, 0) := by decide

example :
    (move_cursor_in_editor (mkState ["First", "Second"] 5 0) 1 0).map
      (fun s => (s.cursor_x, s.cursor_y)) = some (0, 1) := by decide

example :
    (move_cursor_in_editor (mkState ["First"] 5 0) 1 0).map
      (fun s => (s.cursor_x, s.cursor_y)) = some (5, 0) := by decide

example :
    (move_cursor_in_editor (mkState ["Second Line"] 0 0) 0 1).map
      (fun s => (s.cursor_x, s.cursor_y)) = some (0, 1) := by decide

/-- `App::write_char_in_editor`: pad the buffer up to the cursor line,
clamp a stale `x` down to the line's character count (the comparison
`char_count < self.cursor_x as usize` casts the cursor to `usize`), insert
the character, then move the cursor right by one. -/
def write_char_in_editor (s : AppState) (c : Char) : Option AppState :=
  if s.cursor_y < 0 then none
  else
    let content := extendLinesUntilGt s.editor_content s.cursor_y.toNat
    match lineAt content s.cursor_y.toNat with
    | none => none
    | some line =>
        let cx : Int :=
          if line.length < usizeCast s.cursor_x then i16OfNat line.length
          else s.cursor_x
        match insertO (usizeCast cx) c line with
        | none => none
        | some line' =>
            move_cursor_in_editor
              { s with editor_content := content.set s.cursor_y.toNat line',
                       cursor_x := cx } 1 0

/-- Apply `f i` to element `i` of a list (indices counted from the first
argument), failing when any application fails — the shape of the
`for (y, line) in lines.iter_mut().enumerate()` loops of the source. -/
def mapIdxO (f : Nat → List Char → Option (List Char)) :
    Nat → List (List Char) → Option (List (List Char))
  | _, [] => some []
  | i, l :: ls =>
      (f i l).bind fun l' => (mapIdxO f (i + 1) ls).map fun ls' => l' :: ls'

/-- Common shape of the three selection-consuming mutators of the source:
take the slice `editor_content[start.y..=end.y]` (panicking unless
`start.y ≤ end.y + 1 ≤ line_count`), and either run the per-line loop when
the slice has more than one line (`multi` receives the index relative to
`start.y` and the relative index of the last line) or transform the single
line `editor_content[start.y]`. -/
def applySelTransform (content : List (List Char)) (st en : CursorPosition)
    (multi : Nat → Nat → List Char → Option (List Char))
    (single : List Char → Option (List Char)) :
    Option (List (List Char)) :=
  if st.y ≤ en.y + 1 ∧ en.y + 1 ≤ content.length then
    let L := en.y + 1 - st.y
    if L > 1 then
      mapIdxO
        (fun i line =>
          if st.y ≤ i ∧ i ≤ en.y then multi (i - st.y) (L - 1) line
          else some line) 0 content
    else
      match lineAt content st.y with
      | none => none
      | some line =>
          match single line with
          | none => none
          | some line' => some (content.set st.y line')
  else none

/-- Per-line transform of the multi-line loop shared by backspace- and
write-with-selection: the last line is drained up to `end.x`, every other
selected line is drained from `start.x` to its end. -/
def backspaceSelMulti (st en : CursorPosition) (r last : Nat)
    (line : List Char) : Option (List Char) :=
  if r = last then drainO 0 en.x line else drainO st.x line.length line

/-- Per-line transform of the multi-line loop of
delete-with-selection: the last line has `[0, end.x)` blanked with
spaces, every other selected line is drained from `start.x`. -/
def deleteSelMulti (st en : CursorPosition) (r last : Nat)
    (line : List Char) : Option (List Char) :=
  if r = last then fillO 0 en.x ' ' line else drainO st.x line.length line

/-- Per-line transform of the multi-line loop of write-with-selection:
the backspace transform followed by inserting the typed character at
`start.x` on the first line. -/
def writeSelMulti (c : Char) (st en : CursorPosition) (r last : Nat)
    (line : List Char) : Option (List Char) :=
  match backspaceSelMulti st en r last line with
  | none => none
  | some l1 => if r = 0 then insertO st.x c l1 else some l1

/-- `App::write_char_in_editor_text_is_selected`: on the selected slice the
last line is drained up to `end.x`, every other selected line is drained
from `start.x` to its end, the first line additionally receives the typed
character at `start.x`; a single-line selection drains `[start.x, end.x)`
and inserts at `start.x`.  The cursor is set to the stored `start` (both
coordinates cast `usize as i16`), the selection is cleared, and the cursor
moves right by one. -/
def write_char_in_editor_text_is_selected (s : AppState) (c : Char) :
    Option AppState :=
  match s.text_selection_start, s.text_selection_end with
  | some st, some en =>
      match applySelTransform s.editor_content st en
        (writeSelMulti c st en)
        (fun line =>
          match drainO st.x en.x line with
          | none => none
          | some l1 => insertO st.x c l1) with
      | none => none
      | some content' =>
          move_cursor_in_editor
            { s with editor_content := content',
                     cursor_x := i16OfNat st.x, cursor_y := i16OfNat st.y,
                     text_selection_start := none,
                     text_selection_end := none } 1 0
  | _, _ => none

/-- `App::backspace_in_editor_text_is_selected`: same slice handling as
write-over, without the character insertion; the cursor lands on the
stored `start`, the selection clears, and the visual column is
recomputed. -/
def backspace_in_editor_text_is_selected (s : AppState) : Option AppState :=
  match s.text_selection_start, s.text_selection_end with
  | some st, some en =>
      match applySelTransform s.editor_content st en
        (backspaceSelMulti st en)
        (fun line => drainO st.x en.x line) with
      | none => none
      | some content' =>
          recompute_visual
            { s with editor_content := content',
                     cursor_x := i16OfNat st.x, cursor_y := i16OfNat st.y,
                     text_selection_start := none, text_selection_end := none }
  | _, _ => none

/-- `App::delete_in_editor_text_is_selected`: the last selected line (or
the whole single-line span) is blanked with spaces via `fill(' ')`, every
other selected line is drained from `start.x`; the cursor lands on the
stored `end`, the selection clears, and the visual column is
recomputed. -/
def delete_in_editor_text_is_selected (s : AppState) : Option AppState :=
  match s.text_selection_start, s.text_selection_end with
  | some st, some en =>
      match applySelTransform s.editor_content st en
        (deleteSelMulti st en)
        (fun line => fillO st.x en.x ' ' line) with
      | none => none
      | some content' =>
          recompute_visual
            { s with editor_content := content',
                     cursor_x := i16OfNat en.x, cursor_y := i16OfNat en.y,
                     text_selection_start := none, text_selection_end := none }
  | _, _ => none

/-- `App::backspace_in_editor`: with `0 < x ≤ char_count` remove the
character left of the cursor and move left; otherwise, when `y > 0`,
remove the current line and append it to the previous line, placing the
cursor at the old junction. -/
def backspace_in_editor (s : AppState) : Option AppState :=
  match lineAt s.editor_content (usizeCast s.cursor_y) with
  | none => none
  | some line =>
      if s.cursor_x > 0 ∧ s.cursor_x ≤ i16OfNat line.length then
        match removeO (usizeCast s.cursor_x - 1) line with
        | none => none
        | some line' =>
            move_cursor_in_editor
              { s with editor_content :=
                  s.editor_content.set (usizeCast s.cursor_y) line' } (-1) 0
      else if s.cursor_y > 0 then
        let content' := s.editor_content.take (usizeCast s.cursor_y) ++
                        s.editor_content.drop (usizeCast s.cursor_y + 1)
        match lineAt content' (usizeCast (s.cursor_y - 1)) with
        | none => none
        | some prev =>
            some { s with
                     editor_content :=
                       content'.set (usizeCast (s.cursor_y - 1)) (prev ++ line),
                     cursor_y := s.cursor_y - 1,
                     cursor_x := i16OfNat prev.length }
      else some s

/-- `App::delete_in_editor`: no-op on an empty line; with the cursor at or
past the penultimate offset and a following line present, merge the
following line upward; otherwise, when `char_count > x + 1`, remove the
character at offset `x + 1` (the source removes at
`self.cursor_x as usize + 1`). -/
def delete_in_editor (s : AppState) : Option AppState :=
  match lineAt s.editor_content (usizeCast s.cursor_y) with
  | none => none
  | some line =>
      let cnt : Int := i16OfNat line.length
      if cnt = 0 then some s
      else if s.cursor_x ≥ cnt - 1 ∧
              s.editor_content.length > usizeCast (s.cursor_y + 1) then
        match lineAt s.editor_content (usizeCast (s.cursor_y + 1)) with
        | none => none
        | some nxt =>
            let content' := s.editor_content.take (usizeCast (s.cursor_y + 1)) ++
                            s.editor_content.drop (usizeCast (s.cursor_y + 1) + 1)
            some { s with editor_content :=
                     content'.set (usizeCast s.cursor_y) (line ++ nxt) }
      else if cnt > s.cursor_x + 1 then
        match removeO (usizeCast s.cursor_x + 1) line with
        | none => none
        | some line' =>
            some { s with editor_content :=
                     s.editor_content.set (usizeCast s.cursor_y) line' }
      else some s

/-- `App::tab_in_editor`: insert a literal tab at the cursor and move
right by one. -/
def tab_in_editor (s : AppState) : Option AppState :=
  match lineAt s.editor_content (usizeCast s.cursor_y) with
  | none => none
  | some line =>
      match insertO (usizeCast s.cursor_x) '\t' line with
      | none => none
      | some line' =>
          move_cursor_in_editor
            { s with editor_content :=
                s.editor_content.set (usizeCast s.cursor_y) line' } 1 0

/-- Rust `Vec::insert(i, l)` on the line buffer: fails (panics) unless
`i ≤ len`. -/
def insertLineO (i : Nat) (l : List Char) (content : List (List Char)) :
    Option (List (List Char)) :=
  if i ≤ content.length then some (content.take i ++ l :: content.drop i)
  else none

/-- `App::enter_in_editor`: at end of line insert an empty line below and
move down; otherwise split the line at the cursor (`split_off`), move
down, insert the split-off suffix as the line at the new cursor row, and
reset `x` to 0. -/
def enter_in_editor (s : AppState) : Option AppState :=
  match lineAt s.editor_content (usizeCast s.cursor_y) with
  | none => none
  | some line =>
      if s.cursor_x ≥ i16OfNat line.length then
        match insertLineO (usizeCast s.cursor_y + 1) [] s.editor_content with
        | none => none
        | some content' =>
            move_cursor_in_editor { s with editor_content := content' } 0 1
      else
        let i := usizeCast s.cursor_x
        if i ≤ line.length then
          match move_cursor_in_editor
              { s with editor_content :=
                  s.editor_content.set (usizeCast s.cursor_y) (line.take i) }
              0 1 with
          | none => none
          | some s1 =>
              match insertLineO (usizeCast s1.cursor_y) [] s1.editor_content with
              | none => none
              | some content'' =>
                  some { s1 with
                           editor_content :=
                             content''.set (usizeCast s1.cursor_y) (line.drop i),
                           cursor_x := 0 }
        else none

/-- The extraction loop of `App::copy_selected_text` over the selected
slice: the first line is drained from `start.x`, the last line up to
`end.x`, interior lines are taken whole. -/
def copyExtract (st en : CursorPosition) (last r : Nat) (line : List Char) :
    Option (List Char) :=
  if r = 0 then
    (if st.x ≤ line.length then some (line.drop st.x) else none)
  else if r = last then
    (if en.x ≤ line.length then some (line.take en.x) else none)
  else some line

/-- The extraction loop of `App::copy_selected_text` over the selected
slice, one `copyExtract` per line. -/
def copySlice (st en : CursorPosition) (last : Nat) :
    Nat → List (List Char) → Option (List (List Char))
  | _, [] => some []
  | r, line :: rest =>
      (copyExtract st en last r line).bind fun t =>
        (copySlice st en last (r + 1) rest).map fun ts => t :: ts

/-- `App::copy_selected_text`: with both endpoints set, store the selected
span (first line from `start.x`, interior lines whole, last line up to
`end.x`; a single-line span is `[start.x, end.x)`) into `copied_text` and
return `Ok`; with no selection, return `Ok` without touching anything. -/
def copy_selected_text (s : AppState) : Option AppState :=
  match s.text_selection_start, s.text_selection_end with
  | some st, some en =>
      if st.y ≤ en.y + 1 ∧ en.y + 1 ≤ s.editor_content.length then
        let L := en.y + 1 - st.y
        if L > 1 then
          match copySlice st en (L - 1) 0 ((s.editor_content.drop st.y).take L) with
          | none => none
          | some sel => some { s with copied_text := sel }
        else
          match lineAt s.editor_content st.y with
          | none => none
          | some line =>
              if st.x ≤ en.x ∧ en.x ≤ line.length then
                some { s with copied_text := [(line.take en.x).drop st.x] }
              else none
      else none
  | _, _ => some s

/-- `App::paste_selected_text`: empty payload is an `Ok` no-op; otherwise
pad the buffer while `len < cursor_y + payload_len - 1`, split the current
line at `min(cursor_x as usize, char_count)`, and splice in the payload
(single line: in-line insertion; multi-line: first payload line joins the
before-cursor half, interior lines go in verbatim, the last payload line
joins the after-cursor half, replacing the current line). -/
def paste_selected_text (s : AppState) : Option AppState :=
  if s.copied_text = [] then some s
  else if s.cursor_y < 0 then none
  else
    let insert_y := s.cursor_y.toNat
    let n := s.copied_text.length
    let content :=
      if s.editor_content.length < insert_y + n - 1 then
        s.editor_content ++
          List.replicate (insert_y + n - 1 - s.editor_content.length) []
      else s.editor_content
    match lineAt content insert_y with
    | none => none
    | some cur =>
        let k := min (usizeCast s.cursor_x) cur.length
        if n = 1 then
          let line' := cur.take k ++ s.copied_text.headI ++ cur.drop k
          some { s with editor_content := content.set insert_y line' }
        else
          let newLines :=
            (cur.take k ++ s.copied_text.headI) ::
              ((s.copied_text.drop 1).take (n - 2) ++
                [s.copied_text.getLastD [] ++ cur.drop k])
          let content' :=
            content.take insert_y ++ newLines ++ content.drop (insert_y + 1)
          some { s with editor_content := content' }

/-- `App::move_selection_cursor`: remember the old cursor, move, then for a
rightward/downward delta set `end` to the new position (setting `start` to
the old one only if unset), and for a leftward/upward delta set `start` to
the new position (setting `end` to the old one only if unset). -/
def move_selection_cursor (s : AppState) (x y : Int) : Option AppState :=
  let old_x := s.cursor_x
  let old_y := s.cursor_y
  match move_cursor_in_editor s x y with
  | none => none
  | some s1 =>
      let oldCp : CursorPosition := ⟨usizeCast old_x, usizeCast old_y⟩
      let newCp : CursorPosition := ⟨usizeCast s1.cursor_x, usizeCast s1.cursor_y⟩
      let s2 :=
        if x > 0 ∨ y > 0 then
          let s' :=
            if s1.text_selection_start.isNone then
              { s1 with text_selection_start := some oldCp }
            else s1
          { s' with text_selection_end := some newCp }
        else s1
      if x < 0 ∨ y < 0 then
        let s' := { s2 with text_selection_start := some newCp }
        if s'.text_selection_end.isNone then
          some { s' with text_selection_end := some oldCp }
        else some s'
      else some s2

/-- `App::is_text_selected`. -/
def is_text_selected (s : AppState) : Bool :=
  s.text_selection_start.isSome && s.text_selection_end.isSome

/-- `App::write_all_char_in_editor`: dispatch on whether a selection is
active. -/
def write_all_char_in_editor (s : AppState) (c : Char) : Option AppState :=
  if is_text_selected s then write_char_in_editor_text_is_selected s c
  else write_char_in_editor s c

/-- `App::backspace_all_in_editor`: dispatch on whether a selection is
active. -/
def backspace_all_in_editor (s : AppState) : Option AppState :=
  if is_text_selected s then backspace_in_editor_text_is_selected s
  else backspace_in_editor s

/-- `App::delete_all_in_editor`: dispatch on whether a selection is
active. -/
def delete_all_in_editor (s : AppState) : Option AppState :=
  if is_text_selected s then delete_in_editor_text_is_selected s
  else delete_in_editor s

/-- `App::move_all_cursor_editor`: extending motions go through the
selection cursor; plain motions move and clear the selection. -/
def move_all_cursor_editor (s : AppState) (x y : Int) (shift_held : Bool) :
    Option AppState :=
  if shift_held then move_selection_cursor s x y
  else
    match move_cursor_in_editor s x y with
    | none => none
    | some s' =>
        some { s' with text_selection_start := none, text_selection_end := none }

/-- Modelled from the spec: the cut operation lives in the input-dispatch
module, which is absent from `src/`; per §4.4 it performs copy, then the
backspace-selection deletion (shrink, not blank), clearing the selection,
and per §7 it fails with a text-selection error when no selection is
active. -/
def cut_selected_text (s : AppState) : Option AppState :=
  if is_text_selected s then
    match copy_selected_text s with
    | none => none
    | some s1 => backspace_in_editor_text_is_selected s1
  else none

/-- The edit operations and cursor calls of the model, as dispatched by
the input layer (spec §4.4): each motion delta is a unit step. -/
inductive EditOp where
  | insertChar (c : Char)
  | backspace
  | del
  | tabKey
  | newline
  | cutOp
  | pasteOp
  | copyOp
  | moveCursor (dx dy : Int)
  | moveSelection (dx dy : Int)
deriving DecidableEq

/-- Interpretation of one edit operation on the app state. -/
def applyEditOp (op : EditOp) (s : AppState) : Option AppState :=
  match op with
  | .insertChar c => write_all_char_in_editor s c
  | .backspace => backspace_all_in_editor s
  | .del => delete_all_in_editor s
  | .tabKey => tab_in_editor s
  | .newline => enter_in_editor s
  | .cutOp => cut_selected_text s
  | .pasteOp => paste_selected_text s
  | .copyOp => copy_selected_text s
  | .moveCursor dx dy => move_cursor_in_editor s dx dy
  | .moveSelection dx dy => move_selection_cursor s dx dy

/-- State builder with an active selection. -/
def withSel (s : AppState) (sx sy ex ey : Nat) : AppState :=
  { s with text_selection_start := some ⟨sx, sy⟩,
           text_selection_end := some ⟨ex, ey⟩ }

/-- Sequential application of a list of edit operations, as the input
layer dispatches them one keystroke at a time. -/
def applyEditOps (ops : List EditOp) (s : AppState) : Option AppState :=
  match ops with
  | [] => some s
  | op :: rest => (applyEditOp op s).bind (applyEditOps rest)

/-- The motion deltas the input layer actually dispatches (spec §4.4):
cursor calls are single-axis unit steps; the edit operations carry no
delta. -/
def opOk : EditOp → Prop
  | .moveCursor dx dy => (dx = 0 ∨ dy = 0) ∧ (dy = -1 ∨ dy = 0 ∨ dy = 1)
  | .moveSelection dx dy => (dx = 0 ∨ dy = 0) ∧ (dy = -1 ∨ dy = 0 ∨ dy = 1)
  | _ => True

example :
    (write_char_in_editor (mkState [""] 0 0) 'a').map
      (fun s => (s.editor_content, s.cursor_x)) =
      some (["a".toList], 1) := by decide

example :
    (write_char_in_editor (mkState [""] 0 10) 'a').map
      (fun s => (s.editor_content[10]?, s.cursor_x)) =
      some (some "a".toList, 1) := by decide

example :
    (write_char_in_editor (mkState [""] 100 0) 'a').map
      (fun s => (s.editor_content, s.cursor_x)) =
      some (["a".toList], 1) := by decide

example :
    (write_char_in_editor_text_is_selected
        (withSel (mkState ["Hello Denmark"] 6 0) 6 0 13 0) 'W').map
      (fun s => (s.editor_content, s.cursor_x, s.text_selection_start)) =
      some (["Hello W".toList], 7, none) := by decide

example :
    (write_char_in_editor_text_is_selected
        (withSel (mkState ["test", "Hello Denmark", "Hello Sudetenland"] 6 1)
          6 1 13 2) 'W').map
      (fun s => (s.editor_content, s.cursor_x)) =
      some (["test".toList, "Hello W".toList, "land".toList], 7) := by decide

example :
    (write_char_in_editor_text_is_selected
        (withSel (mkState ["ᚠΩ₿😎"] 1 0) 1 0 2 0) 'a').map
      (fun s => (s.editor_content, s.cursor_x)) =
      some (["ᚠa₿😎".toList], 2) := by decide

example :
    (backspace_in_editor (mkState ["a"] 1 0)).map
      (fun s => (s.editor_content, s.cursor_x)) =
      some ([[]], 0) := by decide

example :
    (backspace_in_editor (mkState ["ᚠΩ₿😎"] 4 0)).map
      (fun s => (s.editor_content, s.cursor_x)) =
      some (["ᚠΩ₿".toList], 3) := by decide

example :
    (backspace_in_editor (mkState ["a", "b"] 0 1)).map
      (fun s => (s.editor_content, s.cursor_x, s.cursor_y)) =
      some (["ab".toList], 1, 0) := by decide

example :
    (backspace_in_editor_text_is_selected
        (withSel (mkState ["Hello Denmark"] 0 0) 6 0 13 0)).map
      (fun s => (s.editor_content, s.cursor_x, s.cursor_y)) =
      some (["Hello ".toList], 6, 0) := by decide

example :
    (backspace_in_editor_text_is_selected
        (withSel (mkState ["test", "Hello Denmark", "Hello Sudetenland"] 0 0)
          6 1 13 2)).map
      (fun s => (s.editor_content, s.cursor_x, s.cursor_y)) =
      some (["test".toList, "Hello ".toList, "land".toList], 6, 1) := by decide

example :
    (backspace_in_editor_text_is_selected
        (withSel (mkState [""] 0 0) 0 0 0 0)).map
      (fun s => (s.editor_content, s.cursor_x, s.cursor_y)) =
      some ([[]], 0, 0) := by decide

example :
    (delete_in_editor (mkState ["ab"] 0 0)).map
      (fun s => (s.editor_content, s.cursor_x)) =
      some (["a".toList], 0) := by decide

example :
    (delete_in_editor (mkState ["a", "b"] 1 0)).map
      (fun s => (s.editor_content, s.cursor_x)) =
      some (["ab".toList], 1) := by decide

example :
    (delete_in_editor_text_is_selected
        (withSel (mkState ["Hello Denmark"] 0 0) 6 0 13 0)).map
      (fun s => (s.editor_content, s.cursor_x, s.cursor_y)) =
      some (["Hello        ".toList], 13, 0) := by decide

example :
    (delete_in_editor_text_is_selected
        (withSel (mkState ["test", "Hello Denmark", "Hello Sudetenland"] 0 0)
          6 1 13 2)).map
      (fun s => (s.editor_content, s.cursor_x, s.cursor_y)) =
      some (["test".toList, "Hello ".toList, "             land".toList],
            13, 2) := by decide

example :
    (tab_in_editor (mkState ["1234"] 2 0)).map
      (fun s => (s.visual_cursor_x, s.cursor_x)) = some (4, 3) := by decide

example :
    ((tab_in_editor (mkState ["1234"] 2 0)).bind
        (fun s => move_cursor_in_editor s 10 0)).map
      (fun s => (s.visual_cursor_x, s.editor_content.headI.length)) =
      some (6, 5) := by decide

example :
    (enter_in_editor (mkState ["Hello World"] 11 0)).map
      (fun s => (s.editor_content, s.cursor_y)) =
      some (["Hello World".toList, []], 1) := by decide

example :
    (enter_in_editor (mkState ["Hello World"] 5 0)).map
      (fun s => (s.editor_content, s.cursor_x, s.cursor_y)) =
      some (["Hello".toList, " World".toList, []], 0, 1) := by decide

example :
    (move_selection_cursor (mkState [] 0 0) 0 (-1)).map
      (fun s => (s.text_selection_start, s.text_selection_end)) =
      some (some ⟨0, 0⟩, some ⟨0, 0⟩) := by decide

example :
    (move_selection_cursor (mkState [] 0 0) 0 1).map
      (fun s => (s.text_selection_start, s.text_selection_end)) =
      some (some ⟨0, 0⟩, some ⟨0, 1⟩) := by decide

example :
    (move_selection_cursor (mkState ["First"] 1 0) (-1) 0).map
      (fun s => (s.text_selection_start, s.text_selection_end)) =
      some (some ⟨0, 0⟩, some ⟨1, 0⟩) := by decide

example :
    (move_selection_cursor (mkState ["First"] 0 0) 1 0).map
      (fun s => (s.text_selection_start, s.text_selection_end)) =
      some (some ⟨0, 0⟩, some ⟨1, 0⟩) := by decide

example :
    ((move_selection_cursor (mkState ["First"] 0 0) 1 0).bind
        (fun s => move_selection_cursor s 1 0) |>.bind
        (fun s => move_selection_cursor s 1 0)).map
      (fun s => (s.text_selection_start, s.text_selection_end)) =
      some (some ⟨0, 0⟩, some ⟨3, 0⟩) := by decide

example :
    (copy_selected_text (withSel (mkState ["Hello, world!"] 0 0) 7 0 12 0)).map
      (fun s => s.copied_text) = some (["world".toList]) := by decide

example :
    (copy_selected_text
        (withSel (mkState ["Hello,", " world!", " Rust"] 0 0) 4 0 3 2)).map
      (fun s => s.copied_text) =
      some (["o,".toList, " world!".toList, " Ru".toList]) := by decide

example :
    copy_selected_text (mkState ["Hello, world!"] 0 0) =
      some (mkState ["Hello, world!"] 0 0) := by decide

example :
    (paste_selected_text
        { mkState ["Hello, world!", "This is a test.", "Another line."] 8 0 with
            copied_text := ["PASTED".toList] }).map
      (fun s => s.editor_content) =
      some ["Hello, wPASTEDorld!".toList, "This is a test.".toList,
            "Another line.".toList] := by decide

example :
    (paste_selected_text
        { mkState ["Hello, world!", "This is a test.", "Another line."] 5 1 with
            copied_text := ["First".toList, "Second ".toList] }).map
      (fun s => s.editor_content) =
      some ["Hello, world!".toList, "This First".toList,
            "Second is a test.".toList, "Another line.".toList] := by decide

example :
    paste_selected_text
        (mkState ["Hello, world!", "This is a test.", "Another line."] 5 1) =
      some (mkState ["Hello, world!", "This is a test.", "Another line."] 5 1) := by
  decide

example :
    (paste_selected_text
        { mkState [] 0 0 with copied_text := ["Hello".toList, "World".toList] }).map
      (fun s => s.editor_content) =
      some ["Hello".toList, "World".toList] := by decide

/-- The cursor-bounds invariant of spec §8: `0 ≤ x ≤ char_count(y)` and
`0 ≤ y < line_count`. -/
def cursorInvariant (s : AppState) : Prop :=
  0 ≤ s.cursor_x ∧ 0 ≤ s.cursor_y ∧
  s.cursor_y < (s.editor_content.length : Int) ∧
  s.cursor_x ≤ (lineLenAt s.editor_content s.cursor_y.toNat : Int)

instance (s : AppState) : Decidable (cursorInvariant s) := by
  unfold cursorInvariant; infer_instance

/-- Every line of the buffer holds at most `B` characters. -/
def linesBounded (c : List (List Char)) (B : Nat) : Prop :=
  ∀ l ∈ c, l.length ≤ B

instance (c : List (List Char)) (B : Nat) : Decidable (linesBounded c B) := by
  unfold linesBounded; infer_instance

/-- The buffer stays within the `i16`-representable range of the cursor
fields: at most 32766 lines, each of at most 32766 characters.  Under this
bound every `as i16` cast of a relevant length is the identity. -/
def smallState (s : AppState) : Prop :=
  s.editor_content.length ≤ 32766 ∧ linesBounded s.editor_content 32766

instance (s : AppState) : Decidable (smallState s) := by
  unfold smallState; infer_instance

/-- Well-formedness of a stored selection pair: both endpoints absent, or
both present and in document order (lexicographically on `(y, x)`). -/
def selPairOk : Option CursorPosition → Option CursorPosition → Prop
  | none, none => True
  | some a, some b => a.y < b.y ∨ (a.y = b.y ∧ a.x ≤ b.x)
  | _, _ => False

instance : (o₁ o₂ : Option CursorPosition) → Decidable (selPairOk o₁ o₂)
  | none, none => .isTrue trivial
  | some _, some _ => by unfold selPairOk; infer_instance
  | none, some _ => .isFalse fun h => h
  | some _, none => .isFalse fun h => h

/-- Well-formedness of the state's stored selection. -/
def selWellFormed (s : AppState) : Prop :=
  selPairOk s.text_selection_start s.text_selection_end

instance (s : AppState) : Decidable (selWellFormed s) := by
  unfold selWellFormed; infer_instance

theorem i16OfNat_small {n : Nat} (h : n ≤ 32767) : i16OfNat n = n := by
  unfold i16OfNat
  have h1 : (n : Int) % 65536 = (n : Int) :=
    Int.emod_eq_of_lt (by omega) (by omega)
  rw [h1, if_neg (by omega)]

theorem usizeCast_nonneg {v : Int} (h0 : 0 ≤ v) (h1 : v < 2 ^ 64) :
    usizeCast v = v.toNat := by
  unfold usizeCast; rw [Int.emod_eq_of_lt h0 h1]

theorem usizeCast_ofNat {n : Nat} (h : n ≤ 2 ^ 64 - 1) :
    usizeCast (n : Int) = n := by
  rw [usizeCast_nonneg (by omega) (by omega)]; omega

theorem extendLines_length (cont : List (List Char)) (t : Nat) :
    (extendLinesUntilGt cont t).length = max cont.length (t + 1) := by
  unfold extendLinesUntilGt; split
  · simp only [List.length_append, List.length_replicate]; omega
  · omega

theorem extendLines_get_lt {cont : List (List Char)} {t i : Nat}
    (h : i < cont.length) : (extendLinesUntilGt cont t)[i]? = cont[i]? := by
  unfold extendLinesUntilGt; split
  · exact List.getElem?_append_left h
  · rfl

theorem extendLines_get_pad {cont : List (List Char)} {t i : Nat}
    (h1 : cont.length ≤ i) (h2 : i ≤ t) :
    (extendLinesUntilGt cont t)[i]? = some [] := by
  unfold extendLinesUntilGt
  rw [if_pos (le_trans h1 h2), List.getElem?_append_right h1,
      List.getElem?_replicate]
  rw [if_pos (by omega)]

theorem extendLines_eq {cont : List (List Char)} {t : Nat}
    (h : t < cont.length) : extendLinesUntilGt cont t = cont := by
  unfold extendLinesUntilGt; rw [if_neg (by omega)]

theorem drainO_eq_some {a b : Nat} {l r : List Char} :
    drainO a b l = some r ↔
      a ≤ b ∧ b ≤ l.length ∧ r = l.take a ++ l.drop b := by
  unfold drainO; split <;> rename_i hc
  · simp only [Option.some_inj]
    constructor
    · intro he; exact ⟨hc.1, hc.2, he.symm⟩
    · intro he; exact he.2.2.symm
  · constructor
    · intro he; exact Option.noConfusion he
    · intro he; exact absurd ⟨he.1, he.2.1⟩ hc

theorem fillO_eq_some {a b : Nat} {c : Char} {l r : List Char} :
    fillO a b c l = some r ↔
      a ≤ b ∧ b ≤ l.length ∧
      r = l.take a ++ List.replicate (b - a) c ++ l.drop b := by
  unfold fillO; split <;> rename_i hc
  · simp only [Option.some_inj]
    constructor
    · intro he; exact ⟨hc.1, hc.2, he.symm⟩
    · intro he; exact he.2.2.symm
  · constructor
    · intro he; exact Option.noConfusion he
    · intro he; exact absurd ⟨he.1, he.2.1⟩ hc

theorem insertO_eq_some {i : Nat} {c : Char} {l r : List Char} :
    insertO i c l = some r ↔ i ≤ l.length ∧ r = l.take i ++ c :: l.drop i := by
  unfold insertO; split <;> rename_i hc
  · simp only [Option.some_inj]
    constructor
    · intro he; exact ⟨hc, he.symm⟩
    · intro he; exact he.2.symm
  · constructor
    · intro he; exact Option.noConfusion he
    · intro he; exact absurd he.1 hc

theorem removeO_eq_some {i : Nat} {l r : List Char} :
    removeO i l = some r ↔ i < l.length ∧ r = l.take i ++ l.drop (i + 1) := by
  unfold removeO; split <;> rename_i hc
  · simp only [Option.some_inj]
    constructor
    · intro he; exact ⟨hc, he.symm⟩
    · intro he; exact he.2.symm
  · constructor
    · intro he; exact Option.noConfusion he
    · intro he; exact absurd he.1 hc

theorem mapIdxO_length {f : Nat → List Char → Option (List Char)} :
    ∀ {k : Nat} {cont d : List (List Char)},
      mapIdxO f k cont = some d → d.length = cont.length := by
  intro k cont
  induction cont generalizing k with
  | nil =>
      intro d h
      simp only [mapIdxO, Option.some_inj] at h
      rw [← h]
  | cons l ls ih =>
      intro d h
      simp only [mapIdxO, Option.bind_eq_some, Option.map_eq_some'] at h
      obtain ⟨l2, _, ls2, hls2, rfl⟩ := h
      simp only [List.length_cons]
      rw [ih hls2]

theorem mapIdxO_get {f : Nat → List Char → Option (List Char)} :
    ∀ {k : Nat} {cont d : List (List Char)},
      mapIdxO f k cont = some d → ∀ i : Nat, d[i]? = cont[i]?.bind (f (k + i)) := by
  intro k cont
  induction cont generalizing k with
  | nil =>
      intro d h i
      simp only [mapIdxO, Option.some_inj] at h
      rw [← h]
      simp
  | cons l ls ih =>
      intro d h i
      simp only [mapIdxO, Option.bind_eq_some, Option.map_eq_some'] at h
      obtain ⟨l2, hl2, ls2, hls2, rfl⟩ := h
      cases i with
      | zero => simpa using hl2.symm
      | succ i =>
          simp only [List.getElem?_cons_succ]
          rw [ih hls2 i]
          ring_nf

theorem copySlice_length {st en : CursorPosition} {last : Nat} :
    ∀ {k : Nat} {cont ts : List (List Char)},
      copySlice st en last k cont = some ts → ts.length = cont.length := by
  intro k cont
  induction cont generalizing k with
  | nil =>
      intro ts h
      simp only [copySlice, Option.some_inj] at h
      rw [← h]
  | cons l ls ih =>
      intro ts h
      simp only [copySlice, Option.bind_eq_some, Option.map_eq_some'] at h
      obtain ⟨t, _, ts2, hts2, rfl⟩ := h
      simp only [List.length_cons]
      rw [ih hts2]

theorem copySlice_get {st en : CursorPosition} {last : Nat} :
    ∀ {k : Nat} {cont ts : List (List Char)},
      copySlice st en last k cont = some ts →
      ∀ i : Nat, ts[i]? = cont[i]?.bind (copyExtract st en last (k + i)) := by
  intro k cont
  induction cont generalizing k with
  | nil =>
      intro ts h i
      simp only [copySlice, Option.some_inj] at h
      rw [← h]
      simp
  | cons l ls ih =>
      intro ts h i
      simp only [copySlice, Option.bind_eq_some, Option.map_eq_some'] at h
      obtain ⟨t, ht, ts2, hts2, rfl⟩ := h
      cases i with
      | zero => simpa using ht.symm
      | succ i =>
          simp only [List.getElem?_cons_succ]
          rw [ih hts2 i]
          ring_nf

theorem applySelTransform_multi {cont : List (List Char)}
    {st en : CursorPosition} {multi : Nat → Nat → List Char → Option (List Char)}
    {single : List Char → Option (List Char)} {res : List (List Char)}
    (hy : st.y < en.y)
    (h : applySelTransform cont st en multi single = some res) :
    en.y < cont.length ∧ res.length = cont.length ∧
    ∀ i : Nat, res[i]? = cont[i]?.bind
      (fun line =>
        if st.y ≤ i ∧ i ≤ en.y then multi (i - st.y) (en.y - st.y) line
        else some line) := by
  simp only [applySelTransform] at h
  split at h
  · rename_i hcond
    rw [if_pos (by omega)] at h
    refine ⟨by omega, mapIdxO_length h, ?_⟩
    intro i
    have h2 := mapIdxO_get h i
    rw [show en.y + 1 - st.y - 1 = en.y - st.y by omega] at h2
    simpa using h2
  · exact Option.noConfusion h

theorem applySelTransform_single {cont : List (List Char)}
    {st en : CursorPosition} {multi : Nat → Nat → List Char → Option (List Char)}
    {single : List Char → Option (List Char)} {res : List (List Char)}
    (hy : en.y ≤ st.y)
    (h : applySelTransform cont st en multi single = some res) :
    ∃ line line2, cont[st.y]? = some line ∧ single line = some line2 ∧
      res = cont.set st.y line2 := by
  simp only [applySelTransform, lineAt] at h
  split at h
  · rename_i hcond
    rw [if_neg (by omega)] at h
    split at h
    · exact Option.noConfusion h
    · rename_i line hline
      split at h
      · exact Option.noConfusion h
      · rename_i line2 hline2
        exact ⟨line, line2, hline, hline2, (Option.some_inj.mp h).symm⟩
  · exact Option.noConfusion h

theorem recompute_visual_some {s t : AppState} (h : recompute_visual s = some t) :
    t = { s with visual_cursor_x := t.visual_cursor_x } := by
  unfold recompute_visual at h
  split at h
  · exact Option.noConfusion h
  · rw [← Option.some_inj.mp h]

theorem recompute_visual_isSome {s : AppState}
    (h : usizeCast s.cursor_y < s.editor_content.length) :
    ∃ t, recompute_visual s = some t := by
  unfold recompute_visual lineAt
  split
  · rename_i hnone
    rw [List.getElem?_eq_getElem h] at hnone
    exact Option.noConfusion hnone
  · exact ⟨_, rfl⟩

theorem recompute_visual_fields {s t : AppState}
    (h : recompute_visual s = some t) :
    t.editor_content = s.editor_content ∧ t.cursor_x = s.cursor_x ∧
    t.cursor_y = s.cursor_y ∧ t.scroll_offset = s.scroll_offset ∧
    t.terminal_height = s.terminal_height ∧
    t.text_selection_start = s.text_selection_start ∧
    t.text_selection_end = s.text_selection_end ∧
    t.copied_text = s.copied_text := by
  rw [recompute_visual_some h]
  exact ⟨rfl, rfl, rfl, rfl, rfl, rfl, rfl, rfl⟩

theorem moveTail_fields {s t : AppState} {y m : Int} (h : moveTail s y m = some t) :
    t.editor_content = s.editor_content ∧ t.terminal_height = s.terminal_height ∧
    t.text_selection_start = s.text_selection_start ∧
    t.text_selection_end = s.text_selection_end ∧
    t.copied_text = s.copied_text := by
  unfold moveTail at h
  split at h
  · rw [← Option.some_inj.mp h]; exact ⟨rfl, rfl, rfl, rfl, rfl⟩
  · split at h
    · exact Option.noConfusion h
    · have h2 := recompute_visual_fields h
      exact ⟨h2.1, h2.2.2.2.2.1, h2.2.2.2.2.2.1, h2.2.2.2.2.2.2.1, h2.2.2.2.2.2.2.2⟩

theorem moveLeftPart_fields {s t : AppState} {x y m : Int}
    (h : moveLeftPart s x y m = some t) :
    t.editor_content = s.editor_content ∧ t.terminal_height = s.terminal_height ∧
    t.text_selection_start = s.text_selection_start ∧
    t.text_selection_end = s.text_selection_end ∧
    t.copied_text = s.copied_text := by
  unfold moveLeftPart at h
  split at h
  · have h2 := moveTail_fields h
    exact ⟨h2.1, h2.2.1, h2.2.2.1, h2.2.2.2.1, h2.2.2.2.2⟩
  · split at h
    · split at h
      · exact Option.noConfusion h
      · have h2 := recompute_visual_fields h
        exact ⟨h2.1, h2.2.2.2.2.1, h2.2.2.2.2.2.1, h2.2.2.2.2.2.2.1,
               h2.2.2.2.2.2.2.2⟩
    · have h2 := moveTail_fields h
      exact ⟨h2.1, h2.2.1, h2.2.2.1, h2.2.2.2.1, h2.2.2.2.2⟩

theorem move_cursor_preserves {s t : AppState} {x y : Int}
    (h : move_cursor_in_editor s x y = some t) :
    t.text_selection_start = s.text_selection_start ∧
    t.text_selection_end = s.text_selection_end ∧
    t.copied_text = s.copied_text ∧
    t.terminal_height = s.terminal_height := by
  simp only [move_cursor_in_editor] at h
  split at h
  · rw [← Option.some_inj.mp h]; exact ⟨rfl, rfl, rfl, rfl⟩
  · split at h
    · exact Option.noConfusion h
    · split at h
      · have h2 := moveLeftPart_fields h
        exact ⟨h2.2.2.1, h2.2.2.2.1, h2.2.2.2.2, h2.2.1⟩
      · split at h
        · split at h
          · exact Option.noConfusion h
          · split at h
            · have h2 := recompute_visual_fields h
              exact ⟨h2.2.2.2.2.2.1, h2.2.2.2.2.2.2.1, h2.2.2.2.2.2.2.2,
                     h2.2.2.2.2.1⟩
            · have h2 := moveLeftPart_fields h
              exact ⟨h2.2.2.1, h2.2.2.2.1, h2.2.2.2.2, h2.2.1⟩
        · have h2 := moveLeftPart_fields h
          exact ⟨h2.2.2.1, h2.2.2.2.1, h2.2.2.2.2, h2.2.1⟩

/-- C5: when a selection is already active (both endpoints set), an
extending motion with a rightward/downward delta updates only the `end`
endpoint (to the post-motion cursor) and leaves `start` untouched, and an
extending motion with a leftward/upward delta updates only the `start`
endpoint and leaves `end` untouched — so the opposite endpoint, once set,
is never overwritten until the selection is cleared, and growing a
selection in one direction then reversing past the anchor preserves the
endpoint on the far side. -/
theorem C5_active_selection_update (s t : AppState) (x y : Int)
    (hs : s.text_selection_start.isSome) (he : s.text_selection_end.isSome)
    (h : move_selection_cursor s x y = some t) :
    ((x > 0 ∨ y > 0) → ¬(x < 0 ∨ y < 0) →
      t.text_selection_start = s.text_selection_start ∧
      t.text_selection_end = some ⟨usizeCast t.cursor_x, usizeCast t.cursor_y⟩) ∧
    ((x < 0 ∨ y < 0) → ¬(x > 0 ∨ y > 0) →
      t.text_selection_end = s.text_selection_end ∧
      t.text_selection_start = some ⟨usizeCast t.cursor_x, usizeCast t.cursor_y⟩) := by
  simp only [move_selection_cursor] at h
  rcases hm : move_cursor_in_editor s x y with _ | s1
  · rw [hm] at h; exact Option.noConfusion h
  · rw [hm] at h
    simp only [] at h
    have hp := move_cursor_preserves hm
    obtain ⟨a, ha⟩ := Option.isSome_iff_exists.mp hs
    obtain ⟨b, hb⟩ := Option.isSome_iff_exists.mp he
    constructor
    · intro hpos hneg
      rw [if_neg hneg, if_pos hpos] at h
      rw [hp.1, ha] at h
      simp only [Option.isNone_some, Bool.false_eq_true, if_false] at h
      have ht := Option.some_inj.mp h
      rw [← ht]
      exact ⟨by rw [hp.1], rfl⟩
    · intro hpos hneg
      rw [if_pos hpos, if_neg hneg] at h
      rw [hp.2.1, hb] at h
      simp only [Option.isNone_some, Bool.false_eq_true, if_false] at h
      have ht := Option.some_inj.mp h
      rw [← ht]
      exact ⟨hb.symm, rfl⟩

/-- Witness for C5 at a concrete input: an active selection
`(0,0)-(1,0)` on buffer `["abc"]` with the cursor at `x = 1`, extended by
a rightward step; the anchor `start = (0,0)` is preserved and `end`
becomes the new cursor position `(2,0)`. -/
theorem C5_active_selection_update_witness :
    ((1 : Int) > 0 ∨ (0 : Int) > 0 → ¬((1 : Int) < 0 ∨ (0 : Int) < 0) →
      ({ editor_content := ["abc".toList], cursor_x := 2, cursor_y := 0,
         visual_cursor_x := 2, scroll_offset := 0, terminal_height := 0,
         text_selection_start := some ⟨0, 0⟩, text_selection_end := some ⟨2, 0⟩,
         copied_text := [] } : AppState).text_selection_start =
        (withSel (mkState ["abc"] 1 0) 0 0 1 0).text_selection_start ∧
      ({ editor_content := ["abc".toList], cursor_x := 2, cursor_y := 0,
         visual_cursor_x := 2, scroll_offset := 0, terminal_height := 0,
         text_selection_start := some ⟨0, 0⟩, text_selection_end := some ⟨2, 0⟩,
         copied_text := [] } : AppState).text_selection_end =
        some ⟨usizeCast 2, usizeCast 0⟩) ∧
    ((1 : Int) < 0 ∨ (0 : Int) < 0 → ¬((1 : Int) > 0 ∨ (0 : Int) > 0) →
      ({ editor_content := ["abc".toList], cursor_x := 2, cursor_y := 0,
         visual_cursor_x := 2, scroll_offset := 0, terminal_height := 0,
         text_selection_start := some ⟨0, 0⟩, text_selection_end := some ⟨2, 0⟩,
         copied_text := [] } : AppState).text_selection_end =
        (withSel (mkState ["abc"] 1 0) 0 0 1 0).text_selection_end ∧
      ({ editor_content := ["abc".toList], cursor_x := 2, cursor_y := 0,
         visual_cursor_x := 2, scroll_offset := 0, terminal_height := 0,
         text_selection_start := some ⟨0, 0⟩, text_selection_end := some ⟨2, 0⟩,
         copied_text := [] } : AppState).text_selection_start =
        some ⟨usizeCast 2, usizeCast 0⟩) :=
  C5_active_selection_update (withSel (mkState ["abc"] 1 0) 0 0 1 0) _ 1 0
    (by decide) (by decide) (by decide)

/-- C1 fails as stated: on buffer
`["test", "Hello Denmark", "Hello Sudetenland"]` with selection
`(6,1)-(13,2)`, delete-with-selection shrinks line 1 from 13 characters to
6 (`"Hello "`), so not every affected line keeps its length. -/
theorem C1_counterexample :
    (delete_in_editor_text_is_selected
        (withSel (mkState ["test", "Hello Denmark", "Hello Sudetenland"] 0 0)
          6 1 13 2)).map
      (fun s => (s.editor_content, s.cursor_x, s.cursor_y)) =
      some (["test".toList, "Hello ".toList, "             land".toList],
            13, 2) ∧
    lineLenAt
      (withSel (mkState ["test", "Hello Denmark", "Hello Sudetenland"] 0 0)
        6 1 13 2).editor_content 1 = 13 ∧
    ¬(6 = 13) := by decide

/-- C2 fails as stated: on buffer
`["test", "Hello Denmark", "Hello Sudetenland"]` with selection
`(6,1)-(13,2)`, backspace-with-selection produces the three lines
`["test", "Hello ", "land"]` (the last line's suffix stays on its own
line and no line is removed), not the claimed two-line merge
`["test", "Hello land"]`. -/
theorem C2_counterexample :
    (backspace_in_editor_text_is_selected
        (withSel (mkState ["test", "Hello Denmark", "Hello Sudetenland"] 0 0)
          6 1 13 2)).map
      (fun s => (s.editor_content, s.cursor_x, s.cursor_y)) =
      some (["test".toList, "Hello ".toList, "land".toList], 6, 1) ∧
    ["test".toList, "Hello ".toList, "land".toList] ≠
      ["test".toList, "Hello land".toList] := by decide

/-- C3 fails as stated: on buffer `["abc"]` with the stored selection out
of document order (`start = (2,0)`, `end = (1,0)`), copy fails (the
source's `drain(start.x..end.x)` panics), while on the normalized
(swapped) pair it succeeds — so a consuming operation does not behave as
it does on the normalized pair. -/
theorem C3_counterexample :
    copy_selected_text (withSel (mkState ["abc"] 0 0) 2 0 1 0) = none ∧
    copy_selected_text (withSel (mkState ["abc"] 0 0) 1 0 2 0) ≠ none := by decide

/-- C4 fails as stated: copy with no active selection returns `Ok` and
leaves the state untouched — a silent success, not a typed
text-selection failure. -/
theorem C4_counterexample :
    copy_selected_text (mkState ["Hello, world!"] 0 0) =
      some (mkState ["Hello, world!"] 0 0) := by decide

/-- C6 fails as stated: point delete on buffer `["ab"]` with the cursor at
`(0,0)` removes the character at offset `x + 1 = 1` (yielding `["a"]`),
not the character at offset `x = 0` (which would yield `["b"]`). -/
theorem C6_counterexample :
    (delete_in_editor (mkState ["ab"] 0 0)).map (fun s => s.editor_content) =
      some ["a".toList] ∧
    ["a".toList] ≠ ["b".toList] := by decide

/-- C7 fails as stated: with the cursor at the bottom edge of the viewport
band (`terminal_height = 3`, `scroll_offset = 0`, cursor at `(3,1)` on
buffer `["ab","abc"]`), moving down is converted into a scroll: the
buffer is extended with an empty line 2, but the cursor stays at `(3,1)`
— the motion is refused and `x = 3` is not clamped to the destination
line's character count 0. -/
theorem C7_counterexample :
    (move_cursor_in_editor
        { mkState ["ab", "abc"] 3 1 with terminal_height := 3 } 0 1).map
      (fun s => (s.cursor_x, s.cursor_y, s.scroll_offset,
                 lineLenAt s.editor_content 2)) =
      some (3, 1, 1, 0) ∧
    ¬((3 : Int) ≤ 0) := by decide

/-- C10 fails as stated: a blocked up-motion from the first line
(`dy = -1` with `cursor.y = 0`) returns immediately without touching the
buffer, and the destination index `cursor.y + dy = -1` is not (and can
never become) a valid buffer index. -/
theorem C10_counterexample :
    move_cursor_in_editor (mkState ["a"] 0 0) 0 (-1) = some (mkState ["a"] 0 0) ∧
    (mkState ["a"] 0 0).cursor_y + (-1) < 0 := by decide

/-- C4 as amended: copy-selected-text invoked with no selection returns
`Ok` with the state (including `copied_text`) unchanged — a silent no-op,
not a typed failure; whenever it succeeds it leaves the buffer, the
cursor and the stored selection unchanged; and with an active selection
it stores the stored (not normalized) range's content as an ordered
sequence of lines: for a multi-line span the first line from `start.x` to
its end, interior lines whole, the last line up to `end.x`; for a
single-line span the slice `[start.x, end.x)`. -/
theorem C4_amended (s : AppState) :
    ((s.text_selection_start = none ∨ s.text_selection_end = none) →
      copy_selected_text s = some s) ∧
    (∀ t, copy_selected_text s = some t →
      t.editor_content = s.editor_content ∧ t.cursor_x = s.cursor_x ∧
      t.cursor_y = s.cursor_y ∧
      t.text_selection_start = s.text_selection_start ∧
      t.text_selection_end = s.text_selection_end) ∧
    (∀ st en t, s.text_selection_start = some st →
      s.text_selection_end = some en → st.y < en.y →
      copy_selected_text s = some t →
      t.copied_text.length = en.y + 1 - st.y ∧
      (∀ l, s.editor_content[st.y]? = some l →
        t.copied_text[0]? = some (l.drop st.x)) ∧
      (∀ i l, st.y < i → i < en.y → s.editor_content[i]? = some l →
        t.copied_text[i - st.y]? = some l) ∧
      (∀ l, s.editor_content[en.y]? = some l →
        t.copied_text[en.y - st.y]? = some (l.take en.x))) ∧
    (∀ st en t l, s.text_selection_start = some st →
      s.text_selection_end = some en → en.y ≤ st.y →
      copy_selected_text s = some t → s.editor_content[st.y]? = some l →
      t.copied_text = [(l.take en.x).drop st.x]) := by
  refine ⟨?_, ?_, ?_, ?_⟩
  · intro hno
    unfold copy_selected_text
    rcases hS : s.text_selection_start with _ | st
    · rfl
    · rcases hE : s.text_selection_end with _ | en
      · rfl
      · rcases hno with h | h
        · rw [h] at hS; exact Option.noConfusion hS
        · rw [h] at hE; exact Option.noConfusion hE
  · intro t h
    unfold copy_selected_text at h
    rcases hS : s.text_selection_start with _ | st <;> rw [hS] at h
    · simp only [] at h
      rw [← Option.some_inj.mp h]
      exact ⟨rfl, rfl, rfl, hS, rfl⟩
    · rcases hE : s.text_selection_end with _ | en <;> rw [hE] at h
      · simp only [] at h
        rw [← Option.some_inj.mp h]
        exact ⟨rfl, rfl, rfl, hS, hE⟩
      · simp only [] at h
        split at h
        · split at h
          · split at h
            · exact Option.noConfusion h
            · rw [← Option.some_inj.mp h]
              exact ⟨rfl, rfl, rfl, rfl, rfl⟩
          · split at h
            · exact Option.noConfusion h
            · split at h
              · rw [← Option.some_inj.mp h]
                exact ⟨rfl, rfl, rfl, rfl, rfl⟩
              · exact Option.noConfusion h
        · exact Option.noConfusion h
  · intro st en t hS hE hy h
    unfold copy_selected_text at h
    rw [hS, hE] at h
    simp only [] at h
    split at h
    · rename_i hcond
      rw [if_pos (by omega)] at h
      rcases hc : copySlice st en (en.y + 1 - st.y - 1) 0
          ((s.editor_content.drop st.y).take (en.y + 1 - st.y)) with _ | sel
      · rw [hc] at h; exact Option.noConfusion h
      · rw [hc] at h
        simp only [] at h
        have ht : t.copied_text = sel := by rw [← Option.some_inj.mp h]
        have hlast : en.y + 1 - st.y - 1 = en.y - st.y := by omega
        rw [hlast] at hc
        have hslice :
            ((s.editor_content.drop st.y).take (en.y + 1 - st.y)).length =
              en.y + 1 - st.y := by
          simp only [List.length_take, List.length_drop]
          omega
        have hlen := copySlice_length hc
        have hget := copySlice_get hc
        have hgetAt : ∀ i, i < en.y + 1 - st.y →
            ((s.editor_content.drop st.y).take (en.y + 1 - st.y))[i]? =
              s.editor_content[st.y + i]? := by
          intro i hi
          rw [List.getElem?_take, if_pos hi, List.getElem?_drop]
        have hselLen : sel.length = en.y + 1 - st.y := by rw [hlen, hslice]
        refine ⟨by rw [ht, hselLen], ?_, ?_, ?_⟩
        · intro l hl
          have h0 := hget 0
          rw [hgetAt 0 (by omega), Nat.add_zero, hl] at h0
          simp only [Option.some_bind] at h0
          unfold copyExtract at h0
          rw [if_pos (by omega)] at h0
          have hs0 : sel[0]?.isSome := by
            rw [List.getElem?_eq_getElem (by omega : 0 < sel.length)]
            rfl
          rw [ht]
          split at h0
          · exact h0
          · rw [h0] at hs0; exact absurd hs0 (by simp)
        · intro i l hi1 hi2 hl
          have hr := hget (i - st.y)
          rw [hgetAt (i - st.y) (by omega),
              show st.y + (i - st.y) = i by omega, hl] at hr
          simp only [Option.some_bind] at hr
          unfold copyExtract at hr
          rw [if_neg (by omega), if_neg (by omega)] at hr
          rw [ht]
          exact hr
        · intro l hl
          have hr := hget (en.y - st.y)
          rw [hgetAt (en.y - st.y) (by omega),
              show st.y + (en.y - st.y) = en.y by omega, hl] at hr
          simp only [Option.some_bind] at hr
          unfold copyExtract at hr
          rw [if_neg (by omega), if_pos (by omega)] at hr
          have hs0 : sel[en.y - st.y]?.isSome := by
            rw [List.getElem?_eq_getElem
              (by rw [hselLen]; omega : en.y - st.y < sel.length)]
            rfl
          rw [ht]
          split at hr
          · exact hr
          · rw [hr] at hs0; exact absurd hs0 (by simp)
    · exact Option.noConfusion h
  · intro st en t l hS hE hy h hl
    unfold copy_selected_text at h
    rw [hS, hE] at h
    simp only [] at h
    split at h
    · rename_i hcond
      rw [if_neg (by omega)] at h
      unfold lineAt at h
      rw [hl] at h
      simp only [] at h
      split at h
      · rw [← Option.some_inj.mp h]
      · exact Option.noConfusion h
    · exact Option.noConfusion h

/-- Witness for C4 at a concrete input: on a buffer with no active
selection, copy returns `Ok` with the state unchanged. -/
theorem C4_amended_witness :
    copy_selected_text (mkState ["abc"] 0 0) = some (mkState ["abc"] 0 0) :=
  (C4_amended (mkState ["abc"] 0 0)).1 (Or.inl rfl)

/-- C3 as amended: the consuming operations read the stored selection
endpoints without normalizing them.  On a stored pair whose endpoints are
out of document order on the same line (`end.x < start.x`), copy,
delete-with-selection, backspace-with-selection and
insert-character-with-selection all fail (the source panics on the
inverted `drain`/`fill`/slice ranges), whereas copy on the swapped pair
succeeds — the operations do not behave as on the normalized pair. -/
theorem C3_amended (s : AppState) (st en : CursorPosition)
    (hst : s.text_selection_start = some st)
    (hen : s.text_selection_end = some en)
    (hy : en.y = st.y) (hx : en.x < st.x)
    (hyl : st.y < s.editor_content.length)
    (hxl : st.x ≤ lineLenAt s.editor_content st.y) :
    copy_selected_text s = none ∧
    delete_in_editor_text_is_selected s = none ∧
    backspace_in_editor_text_is_selected s = none ∧
    (∀ c, write_char_in_editor_text_is_selected s c = none) ∧
    copy_selected_text
      { s with text_selection_start := some en,
               text_selection_end := some st } ≠ none := by
  obtain ⟨line, hline⟩ : ∃ l, s.editor_content[st.y]? = some l :=
    ⟨_, List.getElem?_eq_getElem hyl⟩
  have hlinelen : lineLenAt s.editor_content st.y = line.length := by
    unfold lineLenAt; rw [hline]; rfl
  have hSelFail :
      ∀ (multi : Nat → Nat → List Char → Option (List Char))
        (single : List Char → Option (List Char)),
        single line = none →
        applySelTransform s.editor_content st en multi single = none := by
    intro multi single hsingle
    unfold applySelTransform lineAt
    rw [if_pos ⟨by omega, by omega⟩, if_neg (by omega), hline]
    simp only [hsingle]
  refine ⟨?_, ?_, ?_, ?_, ?_⟩
  · unfold copy_selected_text lineAt
    rw [hst, hen]
    simp only []
    rw [if_pos ⟨by omega, by omega⟩, if_neg (by omega), hline]
    simp only []
    rw [if_neg (by rintro ⟨h1, h2⟩; omega)]
  · unfold delete_in_editor_text_is_selected
    rw [hst, hen]
    simp only []
    rw [hSelFail _ _ (by unfold fillO; rw [if_neg (by rintro ⟨h1, h2⟩; omega)])]
  · unfold backspace_in_editor_text_is_selected
    rw [hst, hen]
    simp only []
    rw [hSelFail _ _ (by unfold drainO; rw [if_neg (by rintro ⟨h1, h2⟩; omega)])]
  · intro c
    unfold write_char_in_editor_text_is_selected
    rw [hst, hen]
    simp only []
    rw [hSelFail _ _ ?_]
    unfold drainO
    rw [if_neg (by rintro ⟨h1, h2⟩; omega)]
  · unfold copy_selected_text lineAt
    simp only []
    rw [if_pos ⟨by omega, by omega⟩, if_neg (by omega)]
    have hyl2 : en.y < s.editor_content.length := by omega
    obtain ⟨line2, hline2⟩ : ∃ l, s.editor_content[en.y]? = some l :=
      ⟨_, List.getElem?_eq_getElem hyl2⟩
    have hline2' : line2 = line := by
      rw [hy] at hline2
      exact Option.some_inj.mp (hline2.symm.trans hline)
    rw [hline2]
    simp only []
    rw [if_pos ⟨by omega, by rw [hline2']; omega⟩]
    exact fun hcontra => Option.noConfusion hcontra

/-- Witness for C3 at a concrete input: buffer `["abc"]`, stored selection
`start = (2,0)`, `end = (1,0)` — all four consumers fail, and copy on the
swapped pair succeeds. -/
theorem C3_amended_witness :
    copy_selected_text (withSel (mkState ["abc"] 0 0) 2 0 1 0) = none ∧
    delete_in_editor_text_is_selected (withSel (mkState ["abc"] 0 0) 2 0 1 0) =
      none ∧
    backspace_in_editor_text_is_selected (withSel (mkState ["abc"] 0 0) 2 0 1 0) =
      none ∧
    (∀ c, write_char_in_editor_text_is_selected
        (withSel (mkState ["abc"] 0 0) 2 0 1 0) c = none) ∧
    copy_selected_text
      { (withSel (mkState ["abc"] 0 0) 2 0 1 0) with
          text_selection_start := some ⟨1, 0⟩,
          text_selection_end := some ⟨2, 0⟩ } ≠ none :=
  C3_amended (withSel (mkState ["abc"] 0 0) 2 0 1 0) ⟨2, 0⟩ ⟨1, 0⟩
    (by decide) (by decide) (by decide) (by decide) (by decide) (by decide)

/-- C6 as amended: point delete is a no-op when the current line is empty
(even when a following line exists); when the cursor is at or past the
penultimate offset (`x ≥ char_count - 1`) and a following line exists, it
merges the following line upward (without removing any character);
otherwise, when `x + 1 < char_count`, it removes the character at offset
`x + 1` (not `x`); at or past the last character of the last line it is a
no-op.  The cursor never moves. -/
theorem C6_amended (s : AppState) (line : List Char) (k : Nat)
    (hline : s.editor_content[usizeCast s.cursor_y]? = some line)
    (hlen : line.length ≤ 32767)
    (hyr : 0 ≤ s.cursor_y ∧ s.cursor_y ≤ 32767)
    (hk : s.cursor_x = (k : Int)) :
    (line.length = 0 → delete_in_editor s = some s) ∧
    (0 < line.length → (line.length : Int) - 1 ≤ (k : Int) →
      ∀ nxt, s.editor_content[usizeCast (s.cursor_y + 1)]? = some nxt →
        ∃ t, delete_in_editor s = some t ∧
          t.cursor_x = s.cursor_x ∧ t.cursor_y = s.cursor_y ∧
          t.editor_content.length + 1 = s.editor_content.length ∧
          t.editor_content[usizeCast s.cursor_y]? = some (line ++ nxt)) ∧
    (k + 1 < line.length →
      ∃ t, delete_in_editor s = some t ∧
        t.cursor_x = s.cursor_x ∧ t.cursor_y = s.cursor_y ∧
        t.editor_content.length = s.editor_content.length ∧
        t.editor_content[usizeCast s.cursor_y]? =
          some (line.take (k + 1) ++ line.drop (k + 2))) ∧
    (0 < line.length → (line.length : Int) - 1 ≤ (k : Int) →
      s.editor_content.length ≤ usizeCast (s.cursor_y + 1) →
      delete_in_editor s = some s) := by
  have hcy : usizeCast s.cursor_y = s.cursor_y.toNat :=
    usizeCast_nonneg hyr.1 (by omega)
  have hcy1 : usizeCast (s.cursor_y + 1) = s.cursor_y.toNat + 1 := by
    rw [usizeCast_nonneg (by omega) (by omega)]
    omega
  have hyLt : s.cursor_y.toNat < s.editor_content.length := by
    by_contra hcon
    rw [hcy, List.getElem?_eq_none (by omega)] at hline
    exact Option.noConfusion hline
  refine ⟨?_, ?_, ?_, ?_⟩
  · intro h0
    unfold delete_in_editor lineAt
    rw [hline]
    simp only [i16OfNat_small hlen]
    rw [if_pos (by omega)]
  · intro hpos hge nxt hnxt
    have hnxtLt : s.cursor_y.toNat + 1 < s.editor_content.length := by
      by_contra hcon
      rw [hcy1, List.getElem?_eq_none (by omega)] at hnxt
      exact Option.noConfusion hnxt
    have hsetIdx : usizeCast s.cursor_y <
        (s.editor_content.take (usizeCast (s.cursor_y + 1)) ++
          s.editor_content.drop (usizeCast (s.cursor_y + 1) + 1)).length := by
      simp only [List.length_append, List.length_take, List.length_drop,
                 hcy1, hcy]
      omega
    let nc := (s.editor_content.take (usizeCast (s.cursor_y + 1)) ++
      s.editor_content.drop (usizeCast (s.cursor_y + 1) + 1)).set
      (usizeCast s.cursor_y) (line ++ nxt)
    refine ⟨{ s with editor_content := nc }, ?_, rfl, rfl, ?_, ?_⟩
    · unfold delete_in_editor lineAt
      rw [hline]
      simp only [i16OfNat_small hlen]
      rw [if_neg (by omega), if_pos ⟨by omega, by rw [hcy1]; omega⟩, hnxt]
    · show ((s.editor_content.take (usizeCast (s.cursor_y + 1)) ++
          s.editor_content.drop (usizeCast (s.cursor_y + 1) + 1)).set
          (usizeCast s.cursor_y) (line ++ nxt)).length + 1 =
          s.editor_content.length
      simp only [List.length_set, List.length_append, List.length_take,
                 List.length_drop, hcy1]
      omega
    · show ((s.editor_content.take (usizeCast (s.cursor_y + 1)) ++
          s.editor_content.drop (usizeCast (s.cursor_y + 1) + 1)).set
          (usizeCast s.cursor_y) (line ++ nxt))[usizeCast s.cursor_y]? =
          some (line ++ nxt)
      exact List.getElem?_set_eq_of_lt _ hsetIdx
  · intro hlt
    let nc := s.editor_content.set (usizeCast s.cursor_y)
      (line.take (k + 1) ++ line.drop (k + 2))
    refine ⟨{ s with editor_content := nc }, ?_, rfl, rfl, ?_, ?_⟩
    · unfold delete_in_editor lineAt
      rw [hline]
      simp only [i16OfNat_small hlen]
      rw [if_neg (by omega), if_neg (by rintro ⟨h1, h2⟩; rw [hk] at h1; omega),
          if_pos (by rw [hk]; omega), hk, usizeCast_ofNat (by omega)]
      unfold removeO
      rw [if_pos (by omega)]
    · show (s.editor_content.set (usizeCast s.cursor_y)
          (line.take (k + 1) ++ line.drop (k + 2))).length =
          s.editor_content.length
      simp only [List.length_set]
    · show (s.editor_content.set (usizeCast s.cursor_y)
          (line.take (k + 1) ++ line.drop (k + 2)))[usizeCast s.cursor_y]? =
          some (line.take (k + 1) ++ line.drop (k + 2))
      exact List.getElem?_set_eq_of_lt _ (by rw [hcy]; omega)
  · intro hpos hge hnofollow
    unfold delete_in_editor lineAt
    rw [hline]
    simp only [i16OfNat_small hlen]
    rw [if_neg (by omega), if_neg (by rintro ⟨h1, h2⟩; omega),
        if_neg (by rw [hk]; omega)]

/-- Witness for C6 at a concrete input: on buffer `["", "abc"]` with the
cursor at `(0,0)`, the current line is empty, so point delete is a no-op
even though a following line exists. -/
theorem C6_amended_witness :
    delete_in_editor (mkState ["", "abc"] 0 0) =
      some (mkState ["", "abc"] 0 0) :=
  (C6_amended (mkState ["", "abc"] 0 0) [] 0 (by decide) (by decide)
    (by decide) (by decide)).1 rfl

theorem drainO_isSome {a b : Nat} {l : List Char} (h : (drainO a b l).isSome) :
    a ≤ b ∧ b ≤ l.length ∧ drainO a b l = some (l.take a ++ l.drop b) := by
  unfold drainO at h ⊢
  split at h
  · rename_i hc; rw [if_pos hc]; exact ⟨hc.1, hc.2, rfl⟩
  · exact absurd h (by simp)

theorem fillO_isSome {a b : Nat} {c : Char} {l : List Char}
    (h : (fillO a b c l).isSome) :
    a ≤ b ∧ b ≤ l.length ∧
    fillO a b c l = some (l.take a ++ List.replicate (b - a) c ++ l.drop b) := by
  unfold fillO at h ⊢
  split at h
  · rename_i hc; rw [if_pos hc]; exact ⟨hc.1, hc.2, rfl⟩
  · exact absurd h (by simp)

theorem insertO_isSome {i : Nat} {c : Char} {l : List Char}
    (h : (insertO i c l).isSome) :
    i ≤ l.length ∧ insertO i c l = some (l.take i ++ c :: l.drop i) := by
  unfold insertO at h ⊢
  split at h
  · rename_i hc; rw [if_pos hc]; exact ⟨hc, rfl⟩
  · exact absurd h (by simp)

/-- C2 as amended: for a multi-line selection, backspace-with-selection
keeps the line count unchanged: the first selected line is truncated to
its prefix before `start.x`, interior selected lines are likewise
truncated at `start.x`, and the last selected line keeps only its suffix
from `end.x` onward as its own line — no merge happens and no line is
removed; lines outside the selection are untouched and the cursor lands
at the stored `start`.  On buffer
`["test","Hello Denmark","Hello Sudetenland"]` with selection
`(6,1)-(13,2)` the buffer becomes the three lines
`["test","Hello ","land"]` with the cursor at `(6,1)`. -/
theorem C2_amended (s t : AppState) (st en : CursorPosition)
    (hst : s.text_selection_start = some st)
    (hen : s.text_selection_end = some en)
    (hy : st.y < en.y) (hsx : st.x ≤ 32767) (hsy : st.y ≤ 32767)
    (h : backspace_in_editor_text_is_selected s = some t) :
    t.cursor_x = (st.x : Int) ∧ t.cursor_y = (st.y : Int) ∧
    t.text_selection_start = none ∧ t.text_selection_end = none ∧
    t.editor_content.length = s.editor_content.length ∧
    (∀ l, s.editor_content[st.y]? = some l →
      t.editor_content[st.y]? = some (l.take st.x)) ∧
    (∀ i l, st.y < i → i < en.y → s.editor_content[i]? = some l →
      t.editor_content[i]? = some (l.take st.x)) ∧
    (∀ l, s.editor_content[en.y]? = some l →
      t.editor_content[en.y]? = some (l.drop en.x)) ∧
    (∀ i, i < st.y ∨ en.y < i →
      t.editor_content[i]? = s.editor_content[i]?) ∧
    (backspace_in_editor_text_is_selected
        (withSel (mkState ["test", "Hello Denmark", "Hello Sudetenland"] 0 0)
          6 1 13 2)).map
      (fun u => (u.editor_content, u.cursor_x, u.cursor_y)) =
      some (["test".toList, "Hello ".toList, "land".toList], 6, 1) := by
  unfold backspace_in_editor_text_is_selected at h
  rw [hst, hen] at h
  simp only [] at h
  rcases hA : applySelTransform s.editor_content st en (backspaceSelMulti st en)
      (fun line => drainO st.x en.x line) with _ | res
  · rw [hA] at h; exact Option.noConfusion h
  · rw [hA] at h
    simp only [] at h
    have hrv := recompute_visual_some h
    have hEnLt := (applySelTransform_multi hy hA).1
    have hLen := (applySelTransform_multi hy hA).2.1
    have hGet := (applySelTransform_multi hy hA).2.2
    have htc : t.editor_content = res := by rw [hrv]
    refine ⟨by rw [hrv]; exact i16OfNat_small hsx,
            by rw [hrv]; exact i16OfNat_small hsy,
            by rw [hrv], by rw [hrv], by rw [htc, hLen],
            ?_, ?_, ?_, ?_, by decide⟩
    · intro l hl
      have hp := hGet st.y
      rw [hl] at hp
      simp only [Option.some_bind] at hp
      rw [if_pos ⟨le_refl st.y, le_of_lt hy⟩, Nat.sub_self] at hp
      unfold backspaceSelMulti at hp
      rw [if_neg (by omega)] at hp
      have hS : res[st.y]?.isSome := by
        rw [List.getElem?_eq_getElem (by omega : st.y < res.length)]; rfl
      rw [hp] at hS
      obtain ⟨h1, h2, h3⟩ := drainO_isSome hS
      rw [htc, hp, h3]
      simp [List.drop_length]
    · intro i l hi1 hi2 hl
      have hp := hGet i
      rw [hl] at hp
      simp only [Option.some_bind] at hp
      rw [if_pos ⟨by omega, by omega⟩] at hp
      unfold backspaceSelMulti at hp
      rw [if_neg (by omega)] at hp
      have hS : res[i]?.isSome := by
        rw [List.getElem?_eq_getElem (by omega : i < res.length)]; rfl
      rw [hp] at hS
      obtain ⟨h1, h2, h3⟩ := drainO_isSome hS
      rw [htc, hp, h3]
      simp [List.drop_length]
    · intro l hl
      have hp := hGet en.y
      rw [hl] at hp
      simp only [Option.some_bind] at hp
      rw [if_pos ⟨by omega, le_refl en.y⟩] at hp
      unfold backspaceSelMulti at hp
      rw [if_pos rfl] at hp
      have hS : res[en.y]?.isSome := by
        rw [List.getElem?_eq_getElem (by omega : en.y < res.length)]; rfl
      rw [hp] at hS
      obtain ⟨h1, h2, h3⟩ := drainO_isSome hS
      rw [htc, hp, h3]
      simp
    · intro i hcond
      have hp := hGet i
      rw [htc, hp]
      rcases hco : s.editor_content[i]? with _ | l
      · rfl
      · simp only [Option.some_bind]
        rw [if_neg (by rcases hcond with hc | hc <;> omega)]

/-- Witness for C2 at the claim's own concrete input. -/
theorem C2_amended_witness :
    (backspace_in_editor_text_is_selected
        (withSel (mkState ["test", "Hello Denmark", "Hello Sudetenland"] 0 0)
          6 1 13 2)).map
      (fun u => (u.editor_content, u.cursor_x, u.cursor_y)) =
      some (["test".toList, "Hello ".toList, "land".toList], 6, 1) :=
  (C2_amended (withSel (mkState ["test", "Hello Denmark", "Hello Sudetenland"]
      0 0) 6 1 13 2)
    { editor_content := ["test".toList, "Hello ".toList, "land".toList],
      cursor_x := 6, cursor_y := 1, visual_cursor_x := 6, scroll_offset := 0,
      terminal_height := 0, text_selection_start := none,
      text_selection_end := none, copied_text := [] }
    ⟨6, 1⟩ ⟨13, 2⟩ (by decide) (by decide) (by decide) (by decide) (by decide)
    (by decide)).2.2.2.2.2.2.2.2.2

theorem getElem?_some_lt {cont : List (List Char)} {i : Nat} {l : List Char}
    (h : cont[i]? = some l) : i < cont.length := by
  by_contra hcon
  rw [List.getElem?_eq_none (by omega)] at h
  exact Option.noConfusion h

/-- C1 as amended: delete-with-selection clears the selection and puts the
cursor at the stored `end`; it never changes the line count.  For a
single-line selection the span `[start.x, end.x)` is blanked with spaces
and the line keeps its length; for a multi-line selection only the last
selected line is blanked (its span `[0, end.x)` filled with spaces, length
preserved) while the first and interior selected lines are truncated at
`start.x` (shrunk, not blanked); lines outside the selection are
untouched.  For the same single-line buffer and selection it still differs
observably from backspace-with-selection, which removes the span and
shrinks the line. -/
theorem C1_amended (s : AppState) (st en : CursorPosition)
    (hst : s.text_selection_start = some st)
    (hen : s.text_selection_end = some en)
    (hex : en.x ≤ 32767) (hey : en.y ≤ 32767) :
    (∀ t, delete_in_editor_text_is_selected s = some t →
      t.cursor_x = (en.x : Int) ∧ t.cursor_y = (en.y : Int) ∧
      t.text_selection_start = none ∧ t.text_selection_end = none ∧
      t.editor_content.length = s.editor_content.length) ∧
    (st.y = en.y → ∀ t l, delete_in_editor_text_is_selected s = some t →
      s.editor_content[st.y]? = some l →
      t.editor_content[st.y]? =
        some (l.take st.x ++ List.replicate (en.x - st.x) ' ' ++ l.drop en.x) ∧
      lineLenAt t.editor_content st.y = l.length ∧
      (∀ i, i ≠ st.y → t.editor_content[i]? = s.editor_content[i]?)) ∧
    (st.y < en.y → ∀ t, delete_in_editor_text_is_selected s = some t →
      (∀ l, s.editor_content[en.y]? = some l →
        t.editor_content[en.y]? =
          some (List.replicate en.x ' ' ++ l.drop en.x) ∧
        lineLenAt t.editor_content en.y = l.length) ∧
      (∀ l, s.editor_content[st.y]? = some l →
        t.editor_content[st.y]? = some (l.take st.x)) ∧
      (∀ i l, st.y < i → i < en.y → s.editor_content[i]? = some l →
        t.editor_content[i]? = some (l.take st.x)) ∧
      (∀ i, i < st.y ∨ en.y < i →
        t.editor_content[i]? = s.editor_content[i]?)) ∧
    (st.y = en.y → st.x < en.x → ∀ t t2 l,
      delete_in_editor_text_is_selected s = some t →
      backspace_in_editor_text_is_selected s = some t2 →
      s.editor_content[st.y]? = some l →
      lineLenAt t.editor_content st.y = l.length ∧
      lineLenAt t2.editor_content st.y < l.length) := by
  have hMain : ∀ t, delete_in_editor_text_is_selected s = some t →
      ∃ res, applySelTransform s.editor_content st en (deleteSelMulti st en)
          (fun line => fillO st.x en.x ' ' line) = some res ∧
        t.editor_content = res ∧ t.cursor_x = i16OfNat en.x ∧
        t.cursor_y = i16OfNat en.y ∧ t.text_selection_start = none ∧
        t.text_selection_end = none := by
    intro t h
    unfold delete_in_editor_text_is_selected at h
    rw [hst, hen] at h
    simp only [] at h
    rcases hA : applySelTransform s.editor_content st en (deleteSelMulti st en)
        (fun line => fillO st.x en.x ' ' line) with _ | res
    · rw [hA] at h; exact Option.noConfusion h
    · rw [hA] at h
      simp only [] at h
      have hrv := recompute_visual_some h
      exact ⟨res, rfl, by rw [hrv], by rw [hrv], by rw [hrv], by rw [hrv],
             by rw [hrv]⟩
  have hSingleLine : st.y = en.y → ∀ t l,
      delete_in_editor_text_is_selected s = some t →
      s.editor_content[st.y]? = some l →
      t.editor_content[st.y]? =
        some (l.take st.x ++ List.replicate (en.x - st.x) ' ' ++ l.drop en.x) ∧
      lineLenAt t.editor_content st.y = l.length ∧
      (∀ i, i ≠ st.y → t.editor_content[i]? = s.editor_content[i]?) := by
    intro hyeq t l h hl
    obtain ⟨res, hA, htc, _, _, _, _⟩ := hMain t h
    obtain ⟨line, line2, hline, hsingle, hres⟩ :=
      applySelTransform_single (by omega) hA
    have hll : line = l := Option.some_inj.mp (hline.symm.trans hl)
    rw [hll] at hsingle
    have hfs := fillO_isSome (by rw [hsingle]; rfl)
    have hline2 : line2 =
        l.take st.x ++ List.replicate (en.x - st.x) ' ' ++ l.drop en.x :=
      Option.some_inj.mp (hsingle.symm.trans hfs.2.2)
    have hstLt : st.y < s.editor_content.length := getElem?_some_lt hl
    have hget : t.editor_content[st.y]? = some line2 := by
      rw [htc, hres]
      exact List.getElem?_set_eq_of_lt _ (by omega)
    refine ⟨by rw [hget, hline2], ?_, ?_⟩
    · unfold lineLenAt
      rw [hget, hline2]
      simp only [Option.getD_some, List.length_append, List.length_take,
                 List.length_replicate, List.length_drop]
      omega
    · intro i hi
      rw [htc, hres]
      exact List.getElem?_set_ne (fun hc => hi hc.symm)
  refine ⟨?_, hSingleLine, ?_, ?_⟩
  · intro t h
    obtain ⟨res, hA, htc, hcx, hcy, hs1, hs2⟩ := hMain t h
    refine ⟨by rw [hcx]; exact i16OfNat_small hex,
            by rw [hcy]; exact i16OfNat_small hey, hs1, hs2, ?_⟩
    by_cases hcase : st.y < en.y
    · rw [htc]; exact (applySelTransform_multi hcase hA).2.1
    · obtain ⟨line, line2, hline, hsingle, hres⟩ :=
        applySelTransform_single (by omega) hA
      rw [htc, hres]
      simp [List.length_set]
  · intro hy t h
    obtain ⟨res, hA, htc, _, _, _, _⟩ := hMain t h
    have hEnLt := (applySelTransform_multi hy hA).1
    have hLen := (applySelTransform_multi hy hA).2.1
    have hGet := (applySelTransform_multi hy hA).2.2
    refine ⟨?_, ?_, ?_, ?_⟩
    · intro l hl
      have hp := hGet en.y
      rw [hl] at hp
      simp only [Option.some_bind] at hp
      rw [if_pos ⟨by omega, le_refl en.y⟩] at hp
      unfold deleteSelMulti at hp
      rw [if_pos rfl] at hp
      have hS : res[en.y]?.isSome := by
        rw [List.getElem?_eq_getElem (by omega : en.y < res.length)]; rfl
      rw [hp] at hS
      obtain ⟨h1, h2, h3⟩ := fillO_isSome hS
      have hval : t.editor_content[en.y]? =
          some (List.replicate en.x ' ' ++ l.drop en.x) := by
        rw [htc, hp, h3]
        simp
      refine ⟨hval, ?_⟩
      unfold lineLenAt
      rw [hval]
      simp only [Option.getD_some, List.length_append, List.length_replicate,
                 List.length_drop]
      omega
    · intro l hl
      have hp := hGet st.y
      rw [hl] at hp
      simp only [Option.some_bind] at hp
      rw [if_pos ⟨le_refl st.y, le_of_lt hy⟩, Nat.sub_self] at hp
      unfold deleteSelMulti at hp
      rw [if_neg (by omega)] at hp
      have hS : res[st.y]?.isSome := by
        rw [List.getElem?_eq_getElem (by omega : st.y < res.length)]; rfl
      rw [hp] at hS
      obtain ⟨h1, h2, h3⟩ := drainO_isSome hS
      rw [htc, hp, h3]
      simp [List.drop_length]
    · intro i l hi1 hi2 hl
      have hp := hGet i
      rw [hl] at hp
      simp only [Option.some_bind] at hp
      rw [if_pos ⟨by omega, by omega⟩] at hp
      unfold deleteSelMulti at hp
      rw [if_neg (by omega)] at hp
      have hS : res[i]?.isSome := by
        rw [List.getElem?_eq_getElem (by omega : i < res.length)]; rfl
      rw [hp] at hS
      obtain ⟨h1, h2, h3⟩ := drainO_isSome hS
      rw [htc, hp, h3]
      simp [List.drop_length]
    · intro i hcond
      have hp := hGet i
      rw [htc, hp]
      rcases hco : s.editor_content[i]? with _ | l
      · rfl
      · simp only [Option.some_bind]
        rw [if_neg (by rcases hcond with hc | hc <;> omega)]
  · intro hyeq hxlt t t2 l h h2 hl
    refine ⟨(hSingleLine hyeq t l h hl).2.1, ?_⟩
    unfold backspace_in_editor_text_is_selected at h2
    rw [hst, hen] at h2
    simp only [] at h2
    rcases hA2 : applySelTransform s.editor_content st en
        (backspaceSelMulti st en)
        (fun line => drainO st.x en.x line) with _ | res2
    · rw [hA2] at h2; exact Option.noConfusion h2
    · rw [hA2] at h2
      simp only [] at h2
      have hrv2 := recompute_visual_some h2
      have htc2 : t2.editor_content = res2 := by rw [hrv2]
      obtain ⟨line, line2, hline, hsingle, hres⟩ :=
        applySelTransform_single (by omega) hA2
      have hll : line = l := Option.some_inj.mp (hline.symm.trans hl)
      rw [hll] at hsingle
      have hds := drainO_isSome (by rw [hsingle]; rfl)
      have hline2 : line2 = l.take st.x ++ l.drop en.x :=
        Option.some_inj.mp (hsingle.symm.trans hds.2.2)
      have hstLt : st.y < s.editor_content.length := getElem?_some_lt hl
      have hget : t2.editor_content[st.y]? = some line2 := by
        rw [htc2, hres]
        exact List.getElem?_set_eq_of_lt _ (by omega)
      unfold lineLenAt
      rw [hget, hline2]
      simp only [Option.getD_some, List.length_append, List.length_take,
                 List.length_drop]
      omega

/-- Witness for C1 at the claim's single-line scenario: buffer
`["Hello Denmark"]`, selection `(6,0)-(13,0)` — delete succeeds and the
resulting state has its selection cleared (one projection of the amended
theorem's success characterization, applied at this concrete input). -/
theorem C1_amended_witness :
    ({ editor_content := ["Hello        ".toList], cursor_x := 13,
       cursor_y := 0, visual_cursor_x := 13, scroll_offset := 0,
       terminal_height := 0, text_selection_start := none,
       text_selection_end := none,
       copied_text := [] } : AppState).text_selection_start = none :=
  ((C1_amended (withSel (mkState ["Hello Denmark"] 0 0) 6 0 13 0)
    ⟨6, 0⟩ ⟨13, 0⟩ (by decide) (by decide) (by decide) (by decide)).1
    ({ editor_content := ["Hello        ".toList], cursor_x := 13,
       cursor_y := 0, visual_cursor_x := 13, scroll_offset := 0,
       terminal_height := 0, text_selection_start := none,
       text_selection_end := none, copied_text := [] })
    (by decide)).2.2.1

/-- C9: paste of an empty clipboard payload leaves the state unchanged (a
defined no-op); paste of a multi-line payload replaces the single current
line with the before-cursor half joined to the first payload line, the
interior payload lines verbatim, and the last payload line joined to the
after-cursor half; and on line `"This is a test."` at `x = 5` the payload
`["First", "Second "]` produces exactly the two lines `"This First"` and
`"Second is a test."`. -/
theorem C9_paste (s : AppState) :
    (s.copied_text = [] → paste_selected_text s = some s) ∧
    (∀ l, 2 ≤ s.copied_text.length →
      0 ≤ s.cursor_y →
      s.cursor_y.toNat + s.copied_text.length - 1 ≤ s.editor_content.length →
      s.editor_content[s.cursor_y.toNat]? = some l →
      0 ≤ s.cursor_x → s.cursor_x ≤ (l.length : Int) → s.cursor_x ≤ 32767 →
      ∃ t, paste_selected_text s = some t ∧
        t.cursor_x = s.cursor_x ∧ t.cursor_y = s.cursor_y ∧
        t.copied_text = s.copied_text ∧
        t.editor_content =
          s.editor_content.take s.cursor_y.toNat ++
          ((l.take s.cursor_x.toNat ++ s.copied_text.headI) ::
            ((s.copied_text.drop 1).take (s.copied_text.length - 2) ++
              [s.copied_text.getLastD [] ++ l.drop s.cursor_x.toNat])) ++
          s.editor_content.drop (s.cursor_y.toNat + 1)) ∧
    (paste_selected_text
        { mkState ["This is a test."] 5 0 with
            copied_text := ["First".toList, "Second ".toList] }).map
      (fun u => u.editor_content) =
      some ["This First".toList, "Second is a test.".toList] := by
  refine ⟨?_, ?_, by decide⟩
  · intro hempty
    unfold paste_selected_text
    rw [if_pos hempty]
  · intro l hn hy0 hpad hl hx0 hxle hxsm
    have hk : min (usizeCast s.cursor_x) l.length = s.cursor_x.toNat := by
      rw [usizeCast_nonneg hx0 (by omega)]
      omega
    let nc := s.editor_content.take s.cursor_y.toNat ++
      ((l.take s.cursor_x.toNat ++ s.copied_text.headI) ::
        ((s.copied_text.drop 1).take (s.copied_text.length - 2) ++
          [s.copied_text.getLastD [] ++ l.drop s.cursor_x.toNat])) ++
      s.editor_content.drop (s.cursor_y.toNat + 1)
    refine ⟨{ s with editor_content := nc }, ?_, rfl, rfl, rfl, rfl⟩
    unfold paste_selected_text lineAt
    rw [if_neg (by intro hc; rw [hc] at hn; simp at hn),
        if_neg (by omega)]
    simp only []
    rw [if_neg (by omega), hl]
    simp only []
    rw [hk, if_neg (by omega)]

/-- Witness for C9 at a concrete input: paste with an empty clipboard on
buffer `["a"]` is an exact no-op. -/
theorem C9_paste_witness :
    paste_selected_text (mkState ["a"] 0 0) = some (mkState ["a"] 0 0) :=
  (C9_paste (mkState ["a"] 0 0)).1 rfl

theorem lineLenAt_bounded {cont : List (List Char)} {B i : Nat}
    (h : linesBounded cont B) : lineLenAt cont i ≤ B := by
  unfold lineLenAt
  rcases hg : cont[i]? with _ | l
  · simp
  · simp only [Option.getD_some]
    exact h l (List.getElem?_mem hg)

theorem extendLines_linesBounded {c : List (List Char)} {B d : Nat}
    (h : linesBounded c B) : linesBounded (extendLinesUntilGt c d) B := by
  unfold extendLinesUntilGt
  split
  · intro l hl
    rcases List.mem_append.mp hl with hm | hm
    · exact h l hm
    · rw [List.eq_of_mem_replicate hm]
      exact Nat.zero_le B
  · exact h

theorem clampI16_eq {v : Int} (h0 : 0 ≤ v) (h1 : v ≤ 32767) :
    clampI16 v = v := by
  unfold clampI16; omega

theorem lineLenAt_extend_lt {c : List (List Char)} {d i : Nat}
    (h : i < c.length) :
    lineLenAt (extendLinesUntilGt c d) i = lineLenAt c i := by
  unfold lineLenAt
  rw [extendLines_get_lt h]

theorem moveTail_inv {s1 t : AppState} {y maxa : Int}
    (h : moveTail s1 y maxa = some t)
    (hy0 : 0 ≤ s1.cursor_y) (hylt : s1.cursor_y < (s1.editor_content.length : Int))
    (hdest0 : 0 ≤ s1.cursor_y + y) (hdest32 : s1.cursor_y + y ≤ 32767)
    (hmax : maxa = (lineLenAt s1.editor_content (s1.cursor_y + y).toNat : Int))
    (hdestlt : (s1.cursor_y + y).toNat < s1.editor_content.length)
    (hscr : y ≠ 0 → 0 ≤ s1.cursor_x ∧
      s1.cursor_x ≤ (lineLenAt s1.editor_content s1.cursor_y.toNat : Int)) :
    cursorInvariant t := by
  unfold moveTail at h
  split at h
  · rename_i hband
    have hyne : y ≠ 0 := by rcases hband with ⟨h1, _⟩ | ⟨h1, _⟩ <;> omega
    rw [← Option.some_inj.mp h]
    exact ⟨(hscr hyne).1, hy0, hylt, (hscr hyne).2⟩
  · split at h
    · exact Option.noConfusion h
    · have hrv := recompute_visual_some h
      rw [hrv]
      refine ⟨?_, ?_, ?_, ?_⟩
      · show (0 : Int) ≤ max 0 (min s1.cursor_x maxa)
        exact le_max_left 0 _
      · show 0 ≤ clampI16 (s1.cursor_y + y)
        rw [clampI16_eq hdest0 hdest32]
        exact hdest0
      · show clampI16 (s1.cursor_y + y) < (s1.editor_content.length : Int)
        rw [clampI16_eq hdest0 hdest32]
        omega
      · show max 0 (min s1.cursor_x maxa) ≤
          (lineLenAt s1.editor_content (clampI16 (s1.cursor_y + y)).toNat : Int)
        rw [clampI16_eq hdest0 hdest32, ← hmax]
        have : 0 ≤ maxa := by rw [hmax]; positivity
        omega

theorem moveLeftPart_inv {s1 t : AppState} {x y maxa : Int}
    (h : moveLeftPart s1 x y maxa = some t)
    (hax : x = 0 ∨ y = 0)
    (hy0 : 0 ≤ s1.cursor_y) (hylt : s1.cursor_y < (s1.editor_content.length : Int))
    (hy32 : s1.cursor_y ≤ 32767)
    (hdest0 : 0 ≤ s1.cursor_y + y) (hdest32 : s1.cursor_y + y ≤ 32767)
    (hmax : maxa = (lineLenAt s1.editor_content (s1.cursor_y + y).toNat : Int))
    (hdestlt : (s1.cursor_y + y).toNat < s1.editor_content.length)
    (hLines1 : linesBounded s1.editor_content 32767)
    (hscr : y ≠ 0 → 0 ≤ s1.cursor_x ∧
      s1.cursor_x ≤ (lineLenAt s1.editor_content s1.cursor_y.toNat : Int)) :
    cursorInvariant t := by
  unfold moveLeftPart at h
  split at h
  · rename_i hc
    refine moveTail_inv h hy0 hylt hdest0 hdest32 hmax hdestlt ?_
    intro hyne
    exact absurd (hax.resolve_left (by omega)) hyne
  · split at h
    · rename_i hc2
      have hy00 : (0 : Int) < s1.cursor_y := by
        rcases hc2 with ⟨_, _, hne⟩
        omega
      have hcast : usizeCast (s1.cursor_y - 1) = (s1.cursor_y - 1).toNat :=
        usizeCast_nonneg (by omega) (by omega)
      split at h
      · exact Option.noConfusion h
      · rename_i prev hprev
        rw [hcast] at hprev
        unfold lineAt at hprev
        have hprevB : prev.length ≤ 32767 :=
          hLines1 prev (List.getElem?_mem hprev)
        have hrv := recompute_visual_some h
        rw [hrv]
        refine ⟨?_, ?_, ?_, ?_⟩
        · show (0 : Int) ≤ i16OfNat prev.length
          rw [i16OfNat_small hprevB]
          positivity
        · show (0 : Int) ≤ s1.cursor_y - 1
          omega
        · show s1.cursor_y - 1 < (s1.editor_content.length : Int)
          omega
        · show (i16OfNat prev.length : Int) ≤
            (lineLenAt s1.editor_content (s1.cursor_y - 1).toNat : Int)
          rw [i16OfNat_small hprevB]
          unfold lineLenAt
          rw [hprev]
          simp
    · exact moveTail_inv h hy0 hylt hdest0 hdest32 hmax hdestlt hscr

/-- Invariant preservation of the cursor-motion routine for unit vertical
deltas and single-axis calls (the only calls the input layer makes). -/
theorem move_inv {s t : AppState} {x y : Int}
    (hInv : cursorInvariant s)
    (hLen : s.editor_content.length ≤ 32767)
    (hLines : linesBounded s.editor_content 32767)
    (hax : x = 0 ∨ y = 0)
    (hy1 : y = -1 ∨ y = 0 ∨ y = 1)
    (h : move_cursor_in_editor s x y = some t) :
    cursorInvariant t := by
  obtain ⟨hx0, hy0, hylt, hxle⟩ := hInv
  simp only [move_cursor_in_editor] at h
  split at h
  · rw [← Option.some_inj.mp h]
    exact ⟨hx0, hy0, hylt, hxle⟩
  · split at h
    · exact Option.noConfusion h
    · rename_i hne hdge
      have hdest0 : 0 ≤ s.cursor_y + y := by omega
      have hdest32 : s.cursor_y + y ≤ 32767 := by omega
      have hylt2 : s.cursor_y <
          ((extendLinesUntilGt s.editor_content (s.cursor_y + y).toNat).length : Int) := by
        rw [extendLines_length]
        omega
      have hLines2 : linesBounded
          (extendLinesUntilGt s.editor_content (s.cursor_y + y).toNat) 32767 :=
        extendLines_linesBounded hLines
      have hdestlt : (s.cursor_y + y).toNat <
          (extendLinesUntilGt s.editor_content (s.cursor_y + y).toNat).length := by
        rw [extendLines_length]
        omega
      have hmaxB : lineLenAt
          (extendLinesUntilGt s.editor_content (s.cursor_y + y).toNat)
          (s.cursor_y + y).toNat ≤ 32767 :=
        lineLenAt_bounded hLines2
      have hmax : i16OfNat (lineLenAt
          (extendLinesUntilGt s.editor_content (s.cursor_y + y).toNat)
          (s.cursor_y + y).toNat) =
          (lineLenAt (extendLinesUntilGt s.editor_content (s.cursor_y + y).toNat)
            (s.cursor_y + y).toNat : Int) :=
        i16OfNat_small hmaxB
      have hxcur : s.cursor_x ≤ (lineLenAt
          (extendLinesUntilGt s.editor_content (s.cursor_y + y).toNat)
          s.cursor_y.toNat : Int) := by
        rw [lineLenAt_extend_lt (by omega)]
        exact hxle
      have hsolve : ∀ s1 t2 : AppState,
          moveLeftPart s1 x y
              (i16OfNat (lineLenAt
                (extendLinesUntilGt s.editor_content (s.cursor_y + y).toNat)
                (s.cursor_y + y).toNat)) = some t2 →
          s1.editor_content =
            extendLinesUntilGt s.editor_content (s.cursor_y + y).toNat →
          s1.cursor_y = s.cursor_y →
          (y ≠ 0 → 0 ≤ s1.cursor_x ∧
            s1.cursor_x ≤ (lineLenAt s1.editor_content s1.cursor_y.toNat : Int)) →
          cursorInvariant t2 := by
        intro s1 t2 h2 he1 he2 hscr1
        refine moveLeftPart_inv h2 hax ?_ ?_ ?_ ?_ ?_ ?_ ?_ ?_ hscr1
        · rw [he2]; exact hy0
        · rw [he1, he2]; exact hylt2
        · rw [he2]; omega
        · rw [he2]; exact hdest0
        · rw [he2]; exact hdest32
        · rw [he1, he2]; exact hmax
        · rw [he1, he2]; exact hdestlt
        · rw [he1]; exact hLines2
      split at h
      · refine hsolve _ _ h rfl rfl ?_
        intro hyne
        have hx00 : x = 0 := hax.resolve_right hyne
        show 0 ≤ s.cursor_x + x ∧ s.cursor_x + x ≤
          (lineLenAt (extendLinesUntilGt s.editor_content (s.cursor_y + y).toNat)
            s.cursor_y.toNat : Int)
        rw [hx00, add_zero]
        exact ⟨hx0, hxcur⟩
      · split at h
        · split at h
          · exact Option.noConfusion h
          · rename_i cur hcur
            split at h
            · rename_i hwrap
              have hrv := recompute_visual_some h
              rw [hrv]
              have hcy : usizeCast s.cursor_y = s.cursor_y.toNat :=
                usizeCast_nonneg hy0 (by omega)
              rw [hcy] at hwrap
              refine ⟨le_refl 0, ?_, ?_, ?_⟩
              · show (0 : Int) ≤ s.cursor_y + 1
                omega
              · show s.cursor_y + 1 <
                  ((extendLinesUntilGt s.editor_content
                    (s.cursor_y + y).toNat).length : Int)
                have := hwrap.2
                omega
              · show (0 : Int) ≤ (lineLenAt
                  (extendLinesUntilGt s.editor_content (s.cursor_y + y).toNat)
                  (s.cursor_y + 1).toNat : Int)
                positivity
            · refine hsolve _ _ h rfl rfl ?_
              intro hyne
              show 0 ≤ s.cursor_x ∧ s.cursor_x ≤
                (lineLenAt (extendLinesUntilGt s.editor_content
                  (s.cursor_y + y).toNat) s.cursor_y.toNat : Int)
              exact ⟨hx0, hxcur⟩
        · refine hsolve _ _ h rfl rfl ?_
          intro hyne
          show 0 ≤ s.cursor_x ∧ s.cursor_x ≤
            (lineLenAt (extendLinesUntilGt s.editor_content
              (s.cursor_y + y).toNat) s.cursor_y.toNat : Int)
          exact ⟨hx0, hxcur⟩

theorem linesBounded_set {c : List (List Char)} {B i : Nat} {l : List Char}
    (hc : linesBounded c B) (hl : l.length ≤ B) :
    linesBounded (c.set i l) B := by
  intro m hm
  rcases List.mem_or_eq_of_mem_set hm with h1 | h1
  · exact hc m h1
  · rw [h1]; exact hl

theorem move_horiz_inv {s t : AppState} {x : Int}
    (hy0 : 0 ≤ s.cursor_y)
    (hylt : s.cursor_y < (s.editor_content.length : Int))
    (hLen : s.editor_content.length ≤ 32767)
    (hLines : linesBounded s.editor_content 32767)
    (h : move_cursor_in_editor s x 0 = some t) :
    cursorInvariant t := by
  simp only [move_cursor_in_editor, add_zero] at h
  rw [extendLines_eq (by omega)] at h
  have hmaxc : i16OfNat (lineLenAt s.editor_content s.cursor_y.toNat) =
      (lineLenAt s.editor_content s.cursor_y.toNat : Int) :=
    i16OfNat_small (lineLenAt_bounded hLines)
  have hsolve : ∀ s1 t2 : AppState,
      moveLeftPart s1 x 0
          (i16OfNat (lineLenAt s.editor_content s.cursor_y.toNat)) = some t2 →
      s1.editor_content = s.editor_content →
      s1.cursor_y = s.cursor_y →
      cursorInvariant t2 := by
    intro s1 t2 h2 he1 he2
    refine moveLeftPart_inv h2 (Or.inr rfl) ?_ ?_ ?_ ?_ ?_ ?_ ?_ ?_
      (fun h0 => absurd rfl h0)
    · rw [he2]; exact hy0
    · rw [he1, he2]; exact hylt
    · rw [he2]; omega
    · rw [he2]; omega
    · rw [he2]; omega
    · rw [he1, he2, add_zero]; exact hmaxc
    · rw [he1, he2, add_zero]; omega
    · rw [he1]; exact hLines
  split at h
  · rename_i hc
    exact absurd hc.2 (by decide)
  · split at h
    · exact Option.noConfusion h
    · split at h
      · exact hsolve _ _ h rfl rfl
      · split at h
        · split at h
          · exact Option.noConfusion h
          · rename_i cur hcur
            split at h
            · rename_i hwrap
              have hrv := recompute_visual_some h
              rw [hrv]
              have hcy : usizeCast s.cursor_y = s.cursor_y.toNat :=
                usizeCast_nonneg hy0 (by omega)
              rw [hcy] at hwrap
              refine ⟨le_refl 0, ?_, ?_, ?_⟩
              · show (0 : Int) ≤ s.cursor_y + 1
                omega
              · show s.cursor_y + 1 < (s.editor_content.length : Int)
                have := hwrap.2
                omega
              · show (0 : Int) ≤
                  (lineLenAt s.editor_content (s.cursor_y + 1).toNat : Int)
                positivity
            · exact hsolve _ _ h rfl rfl
        · exact hsolve _ _ h rfl rfl

theorem write_char_inv {s t : AppState} {c : Char}
    (hInv : cursorInvariant s) (hSmall : smallState s)
    (h : write_char_in_editor s c = some t) :
    cursorInvariant t := by
  obtain ⟨hx0, hy0, hylt, hxle⟩ := hInv
  obtain ⟨hLen, hLines⟩ := hSmall
  simp only [write_char_in_editor] at h
  rw [if_neg (by omega), extendLines_eq (by omega)] at h
  split at h
  · exact Option.noConfusion h
  · rename_i line hline
    split at h
    · exact Option.noConfusion h
    · rename_i line2 hline2
      obtain ⟨hile, hshape⟩ := insertO_eq_some.mp hline2
      have hlineB : line.length ≤ 32766 := by
        unfold lineAt at hline
        exact hLines line (List.getElem?_mem hline)
      have hlen2 : line2.length = line.length + 1 := by
        rw [hshape]
        simp only [List.length_append, List.length_cons, List.length_take,
          List.length_drop]
        omega
      refine move_horiz_inv ?_ ?_ ?_ ?_ h
      · show 0 ≤ s.cursor_y
        exact hy0
      · show s.cursor_y <
          ((s.editor_content.set s.cursor_y.toNat line2).length : Int)
        rw [List.length_set]
        exact hylt
      · show (s.editor_content.set s.cursor_y.toNat line2).length ≤ 32767
        rw [List.length_set]
        omega
      · show linesBounded (s.editor_content.set s.cursor_y.toNat line2) 32767
        exact linesBounded_set (fun l hl => le_trans (hLines l hl) (by omega))
          (by omega)

theorem tab_inv {s t : AppState}
    (hInv : cursorInvariant s) (hSmall : smallState s)
    (h : tab_in_editor s = some t) : cursorInvariant t := by
  obtain ⟨hx0, hy0, hylt, hxle⟩ := hInv
  obtain ⟨hLen, hLines⟩ := hSmall
  simp only [tab_in_editor] at h
  split at h
  · exact Option.noConfusion h
  · rename_i line hline
    split at h
    · exact Option.noConfusion h
    · rename_i line2 hline2
      obtain ⟨hile, hshape⟩ := insertO_eq_some.mp hline2
      have hlineB : line.length ≤ 32766 := by
        unfold lineAt at hline
        exact hLines line (List.getElem?_mem hline)
      have hlen2 : line2.length = line.length + 1 := by
        rw [hshape]
        simp only [List.length_append, List.length_cons, List.length_take,
          List.length_drop]
        omega
      refine move_horiz_inv ?_ ?_ ?_ ?_ h
      · show 0 ≤ s.cursor_y
        exact hy0
      · show s.cursor_y <
          ((s.editor_content.set (usizeCast s.cursor_y) line2).length : Int)
        rw [List.length_set]
        exact hylt
      · show (s.editor_content.set (usizeCast s.cursor_y) line2).length ≤ 32767
        rw [List.length_set]
        omega
      · show linesBounded
          (s.editor_content.set (usizeCast s.cursor_y) line2) 32767
        exact linesBounded_set (fun l hl => le_trans (hLines l hl) (by omega))
          (by omega)

theorem backspace_point_inv {s t : AppState}
    (hInv : cursorInvariant s) (hSmall : smallState s)
    (h : backspace_in_editor s = some t) : cursorInvariant t := by
  obtain ⟨hx0, hy0, hylt, hxle⟩ := hInv
  obtain ⟨hLen, hLines⟩ := hSmall
  have hcast : usizeCast s.cursor_y = s.cursor_y.toNat :=
    usizeCast_nonneg hy0 (by omega)
  simp only [backspace_in_editor] at h
  split at h
  · exact Option.noConfusion h
  · rename_i line hline
    split at h
    · split at h
      · exact Option.noConfusion h
      · rename_i line2 hline2
        obtain ⟨hilt, hshape⟩ := removeO_eq_some.mp hline2
        have hlen2 : line2.length = line.length - 1 := by
          rw [hshape]
          simp only [List.length_append, List.length_take, List.length_drop]
          omega
        have hlineB : line.length ≤ 32766 := by
          unfold lineAt at hline
          exact hLines line (List.getElem?_mem hline)
        refine move_horiz_inv ?_ ?_ ?_ ?_ h
        · show 0 ≤ s.cursor_y
          exact hy0
        · show s.cursor_y <
            ((s.editor_content.set (usizeCast s.cursor_y) line2).length : Int)
          rw [List.length_set]
          exact hylt
        · show (s.editor_content.set (usizeCast s.cursor_y) line2).length ≤ 32767
          rw [List.length_set]
          omega
        · show linesBounded
            (s.editor_content.set (usizeCast s.cursor_y) line2) 32767
          exact linesBounded_set (fun l hl => le_trans (hLines l hl) (by omega))
            (by omega)
    · split at h
      · rename_i hygt
        split at h
        · exact Option.noConfusion h
        · rename_i prev hprev
          have hcast2 : usizeCast (s.cursor_y - 1) = (s.cursor_y - 1).toNat :=
            usizeCast_nonneg (by omega) (by omega)
          unfold lineAt at hprev
          have hprevmem : prev ∈ s.editor_content := by
            rcases List.mem_append.mp (List.getElem?_mem hprev) with hm | hm
            · exact List.mem_of_mem_take hm
            · exact List.mem_of_mem_drop hm
          have hprevB : prev.length ≤ 32766 := hLines prev hprevmem
          rw [← Option.some_inj.mp h]
          refine ⟨?_, ?_, ?_, ?_⟩
          · show (0 : Int) ≤ i16OfNat prev.length
            rw [i16OfNat_small (by omega)]
            positivity
          · show (0 : Int) ≤ s.cursor_y - 1
            omega
          · show s.cursor_y - 1 <
              ((((s.editor_content.take (usizeCast s.cursor_y)) ++
                 s.editor_content.drop (usizeCast s.cursor_y + 1)).set
                (usizeCast (s.cursor_y - 1)) (prev ++ line)).length : Int)
            rw [List.length_set, List.length_append, List.length_take,
              List.length_drop, hcast]
            omega
          · show (i16OfNat prev.length : Int) ≤
              (lineLenAt
                (((s.editor_content.take (usizeCast s.cursor_y)) ++
                  s.editor_content.drop (usizeCast s.cursor_y + 1)).set
                  (usizeCast (s.cursor_y - 1)) (prev ++ line))
                (s.cursor_y - 1).toNat : Int)
            rw [i16OfNat_small (by omega), hcast2, hcast]
            unfold lineLenAt
            rw [List.getElem?_set_eq_of_lt _
              (by
                rw [List.length_append, List.length_take, List.length_drop]
                omega)]
            simp only [Option.getD_some, List.length_append]
            omega
      · rw [← Option.some_inj.mp h]
        exact ⟨hx0, hy0, hylt, hxle⟩

theorem delete_point_inv {s t : AppState}
    (hInv : cursorInvariant s) (hSmall : smallState s)
    (h : delete_in_editor s = some t) : cursorInvariant t := by
  obtain ⟨hx0, hy0, hylt, hxle⟩ := hInv
  obtain ⟨hLen, hLines⟩ := hSmall
  have hcast : usizeCast s.cursor_y = s.cursor_y.toNat :=
    usizeCast_nonneg hy0 (by omega)
  simp only [delete_in_editor] at h
  split at h
  · exact Option.noConfusion h
  · rename_i line hline
    rw [hcast] at hline
    unfold lineAt at hline
    have hlineB : line.length ≤ 32766 := hLines line (List.getElem?_mem hline)
    have hlineLen : lineLenAt s.editor_content s.cursor_y.toNat = line.length := by
      unfold lineLenAt
      rw [hline]
      rfl
    split at h
    · rw [← Option.some_inj.mp h]
      exact ⟨hx0, hy0, hylt, hxle⟩
    · split at h
      · rename_i hcond
        split at h
        · exact Option.noConfusion h
        · rename_i nxt hnxt
          have hcast1 : usizeCast (s.cursor_y + 1) = s.cursor_y.toNat + 1 := by
            rw [usizeCast_nonneg (by omega) (by omega)]
            omega
          rw [hcast1] at hcond
          rw [← Option.some_inj.mp h]
          refine ⟨hx0, hy0, ?_, ?_⟩
          · show s.cursor_y <
              ((((s.editor_content.take (usizeCast (s.cursor_y + 1))) ++
                 s.editor_content.drop (usizeCast (s.cursor_y + 1) + 1)).set
                (usizeCast s.cursor_y) (line ++ nxt)).length : Int)
            rw [List.length_set, List.length_append, List.length_take,
              List.length_drop, hcast1]
            omega
          · show s.cursor_x ≤
              (lineLenAt
                (((s.editor_content.take (usizeCast (s.cursor_y + 1))) ++
                  s.editor_content.drop (usizeCast (s.cursor_y + 1) + 1)).set
                  (usizeCast s.cursor_y) (line ++ nxt))
                s.cursor_y.toNat : Int)
            rw [hcast, hcast1]
            unfold lineLenAt
            rw [List.getElem?_set_eq_of_lt _
              (by
                rw [List.length_append, List.length_take, List.length_drop]
                omega)]
            simp only [Option.getD_some, List.length_append]
            rw [hlineLen] at hxle
            omega
      · split at h
        · rename_i hcnt
          split at h
          · exact Option.noConfusion h
          · rename_i line2 hline2
            obtain ⟨hilt, hshape⟩ := removeO_eq_some.mp hline2
            have hlen2 : line2.length = line.length - 1 := by
              rw [hshape]
              simp only [List.length_append, List.length_take, List.length_drop]
              omega
            rw [i16OfNat_small (by omega : line.length ≤ 32767)] at hcnt
            rw [← Option.some_inj.mp h]
            refine ⟨hx0, hy0, ?_, ?_⟩
            · show s.cursor_y <
                ((s.editor_content.set (usizeCast s.cursor_y) line2).length : Int)
              rw [List.length_set]
              exact hylt
            · show s.cursor_x ≤
                (lineLenAt (s.editor_content.set (usizeCast s.cursor_y) line2)
                  s.cursor_y.toNat : Int)
              rw [hcast]
              unfold lineLenAt
              rw [List.getElem?_set_eq_of_lt _ (by omega)]
              simp only [Option.getD_some]
              omega
        · rw [← Option.some_inj.mp h]
          exact ⟨hx0, hy0, hylt, hxle⟩

theorem insertLineO_eq_some {i : Nat} {l : List Char} {c d : List (List Char)} :
    insertLineO i l c = some d ↔ i ≤ c.length ∧ d = c.take i ++ l :: c.drop i := by
  unfold insertLineO; split <;> rename_i hc
  · simp only [Option.some_inj]
    constructor
    · intro he; exact ⟨hc, he.symm⟩
    · intro he; exact he.2.symm
  · constructor
    · intro he; exact Option.noConfusion he
    · intro he; exact absurd he.1 hc

theorem linesBounded_insertLine {c : List (List Char)} {i B : Nat}
    {l : List Char} (hc : linesBounded c B) (hl : l.length ≤ B) :
    linesBounded (c.take i ++ l :: c.drop i) B := by
  intro m hm
  rcases List.mem_append.mp hm with hm1 | hm1
  · exact hc m (List.mem_of_mem_take hm1)
  · rcases List.mem_cons.mp hm1 with hm2 | hm2
    · rw [hm2]; exact hl
    · exact hc m (List.mem_of_mem_drop hm2)

theorem lineLenAt_insertLine_lt {c : List (List Char)} {i j : Nat}
    {l : List Char} (hj : j < i) (hi : i ≤ c.length) :
    lineLenAt (c.take i ++ l :: c.drop i) j = lineLenAt c j := by
  unfold lineLenAt
  rw [List.getElem?_append_left (by rw [List.length_take]; omega),
      List.getElem?_take, if_pos hj]

theorem move_content {s t : AppState} {x y : Int}
    (h : move_cursor_in_editor s x y = some t)
    (hne : ¬(s.cursor_y = 0 ∧ y = -1)) :
    t.editor_content = extendLinesUntilGt s.editor_content (s.cursor_y + y).toNat := by
  simp only [move_cursor_in_editor] at h
  rw [if_neg hne] at h
  split at h
  · exact Option.noConfusion h
  · split at h
    · exact (moveLeftPart_fields h).1
    · split at h
      · split at h
        · exact Option.noConfusion h
        · split at h
          · exact (recompute_visual_fields h).1
          · exact (moveLeftPart_fields h).1
      · exact (moveLeftPart_fields h).1

theorem enter_inv {s t : AppState}
    (hInv : cursorInvariant s) (hSmall : smallState s)
    (h : enter_in_editor s = some t) : cursorInvariant t := by
  obtain ⟨hx0, hy0, hylt, hxle⟩ := hInv
  obtain ⟨hLen, hLines⟩ := hSmall
  have hcast : usizeCast s.cursor_y = s.cursor_y.toNat :=
    usizeCast_nonneg hy0 (by omega)
  simp only [enter_in_editor] at h
  split at h
  · exact Option.noConfusion h
  · rename_i line hline
    have hlineB : line.length ≤ 32766 := by
      unfold lineAt at hline
      exact hLines line (List.getElem?_mem hline)
    have hlineLen : lineLenAt s.editor_content s.cursor_y.toNat = line.length := by
      unfold lineAt at hline
      rw [hcast] at hline
      unfold lineLenAt
      rw [hline]
      rfl
    split at h
    · split at h
      · exact Option.noConfusion h
      · rename_i content2 hins
        obtain ⟨hle, rfl⟩ := insertLineO_eq_some.mp hins
        refine move_inv ?_ ?_ ?_ (Or.inl rfl) (Or.inr (Or.inr rfl)) h
        · refine ⟨hx0, hy0, ?_, ?_⟩
          · show s.cursor_y <
              (((s.editor_content.take (usizeCast s.cursor_y + 1) ++
                 [] :: s.editor_content.drop (usizeCast s.cursor_y + 1)).length :
                Int))
            rw [List.length_append, List.length_take, List.length_cons,
              List.length_drop, hcast]
            omega
          · show s.cursor_x ≤
              (lineLenAt
                (s.editor_content.take (usizeCast s.cursor_y + 1) ++
                 [] :: s.editor_content.drop (usizeCast s.cursor_y + 1))
                s.cursor_y.toNat : Int)
            rw [hcast, lineLenAt_insertLine_lt (by omega) (by omega)]
            exact hxle
        · show (s.editor_content.take (usizeCast s.cursor_y + 1) ++
              [] :: s.editor_content.drop (usizeCast s.cursor_y + 1)).length ≤ 32767
          rw [List.length_append, List.length_take, List.length_cons,
            List.length_drop]
          omega
        · show linesBounded
            (s.editor_content.take (usizeCast s.cursor_y + 1) ++
             [] :: s.editor_content.drop (usizeCast s.cursor_y + 1)) 32767
          exact linesBounded_insertLine
            (fun l hl => le_trans (hLines l hl) (by omega)) (by simp)
    · split at h
      · rename_i hile
        split at h
        · exact Option.noConfusion h
        · rename_i s1 hmove
          have hs1 : cursorInvariant s1 := by
            refine move_inv ?_ ?_ ?_ (Or.inl rfl) (Or.inr (Or.inr rfl)) hmove
            · refine ⟨hx0, hy0, ?_, ?_⟩
              · show s.cursor_y <
                  ((s.editor_content.set (usizeCast s.cursor_y)
                    (line.take (usizeCast s.cursor_x))).length : Int)
                rw [List.length_set]
                exact hylt
              · show s.cursor_x ≤
                  (lineLenAt
                    (s.editor_content.set (usizeCast s.cursor_y)
                      (line.take (usizeCast s.cursor_x)))
                    s.cursor_y.toNat : Int)
                rw [hcast]
                unfold lineLenAt
                rw [List.getElem?_set_eq_of_lt _ (by omega)]
                simp only [Option.getD_some, List.length_take]
                rw [usizeCast_nonneg hx0 (by omega)]
                rw [hlineLen] at hxle
                omega
            · show (s.editor_content.set (usizeCast s.cursor_y)
                  (line.take (usizeCast s.cursor_x))).length ≤ 32767
              rw [List.length_set]
              omega
            · show linesBounded
                (s.editor_content.set (usizeCast s.cursor_y)
                  (line.take (usizeCast s.cursor_x))) 32767
              refine linesBounded_set
                (fun l hl => le_trans (hLines l hl) (by omega)) ?_
              rw [List.length_take]
              omega
          obtain ⟨h1x0, h1y0, h1ylt, h1xle⟩ := hs1
          have hc1 := move_content hmove (fun hc => absurd hc.2 (by decide))
          have hlen1 : s1.editor_content.length ≤ 32767 := by
            rw [hc1]
            show (extendLinesUntilGt
              (s.editor_content.set (usizeCast s.cursor_y)
                (line.take (usizeCast s.cursor_x)))
              (s.cursor_y + 1).toNat).length ≤ 32767
            rw [extendLines_length, List.length_set]
            omega
          have hcast1 : usizeCast s1.cursor_y = s1.cursor_y.toNat :=
            usizeCast_nonneg h1y0 (by omega)
          split at h
          · exact Option.noConfusion h
          · rename_i content2 hins
            obtain ⟨hle2, rfl⟩ := insertLineO_eq_some.mp hins
            rw [← Option.some_inj.mp h]
            refine ⟨le_refl 0, ?_, ?_, ?_⟩
            · show 0 ≤ s1.cursor_y
              exact h1y0
            · show s1.cursor_y <
                (((s1.editor_content.take (usizeCast s1.cursor_y) ++
                   [] :: s1.editor_content.drop (usizeCast s1.cursor_y)).set
                  (usizeCast s1.cursor_y)
                  (line.drop (usizeCast s.cursor_x))).length : Int)
              rw [List.length_set, List.length_append, List.length_take,
                List.length_cons, List.length_drop, hcast1]
              omega
            · show (0 : Int) ≤
                (lineLenAt
                  ((s1.editor_content.take (usizeCast s1.cursor_y) ++
                    [] :: s1.editor_content.drop (usizeCast s1.cursor_y)).set
                    (usizeCast s1.cursor_y)
                    (line.drop (usizeCast s.cursor_x)))
                  s1.cursor_y.toNat : Int)
              positivity
      · exact Option.noConfusion h

theorem backspaceSelMulti_len {st en : CursorPosition} {r last : Nat}
    {line l2 : List Char} (h : backspaceSelMulti st en r last line = some l2) :
    l2.length ≤ line.length := by
  unfold backspaceSelMulti at h
  split at h <;>
  · obtain ⟨h1, h2, hs⟩ := drainO_eq_some.mp h
    rw [hs]
    simp only [List.length_append, List.length_take, List.length_drop]
    omega

theorem deleteSelMulti_len {st en : CursorPosition} {r last : Nat}
    {line l2 : List Char} (h : deleteSelMulti st en r last line = some l2) :
    l2.length ≤ line.length := by
  unfold deleteSelMulti at h
  split at h
  · obtain ⟨h1, h2, hs⟩ := fillO_eq_some.mp h
    rw [hs]
    simp only [List.length_append, List.length_take, List.length_drop,
      List.length_replicate]
    omega
  · obtain ⟨h1, h2, hs⟩ := drainO_eq_some.mp h
    rw [hs]
    simp only [List.length_append, List.length_take, List.length_drop]
    omega

theorem writeSelMulti_len {c : Char} {st en : CursorPosition} {r last : Nat}
    {line l2 : List Char} (h : writeSelMulti c st en r last line = some l2) :
    l2.length ≤ line.length + 1 := by
  unfold writeSelMulti at h
  split at h
  · exact Option.noConfusion h
  · rename_i l1 hl1
    have h1 : l1.length ≤ line.length := backspaceSelMulti_len hl1
    split at h
    · obtain ⟨hi, hs⟩ := insertO_eq_some.mp h
      rw [hs]
      simp only [List.length_append, List.length_cons, List.length_take,
        List.length_drop]
      omega
    · rw [← Option.some_inj.mp h]
      omega

theorem backspace_sel_inv {s t : AppState}
    (hSel : selWellFormed s) (hSmall : smallState s)
    (h : backspace_in_editor_text_is_selected s = some t) : cursorInvariant t := by
  obtain ⟨hLen, hLines⟩ := hSmall
  unfold backspace_in_editor_text_is_selected at h
  unfold selWellFormed at hSel
  rcases hst : s.text_selection_start with _ | st
  · rw [hst] at h
    simp only [] at h
    exact Option.noConfusion h
  · rcases hen : s.text_selection_end with _ | en
    · rw [hst, hen] at h
      simp only [] at h
      exact Option.noConfusion h
    · rw [hst, hen] at h
      simp only [] at h
      rw [hst, hen] at hSel
      simp only [selPairOk] at hSel
      rcases hA : applySelTransform s.editor_content st en
          (backspaceSelMulti st en) (fun line => drainO st.x en.x line) with
        _ | content2
      · rw [hA] at h
        exact Option.noConfusion h
      · rw [hA] at h
        simp only [] at h
        rcases hSel with hlt | ⟨heq, hxe⟩
        · obtain ⟨henlt, hlen2, hget⟩ := applySelTransform_multi hlt hA
          have hsty : st.y < s.editor_content.length := by omega
          have h1 := hget st.y
          rw [List.getElem?_eq_getElem hsty] at h1
          simp only [Option.some_bind] at h1
          rw [if_pos ⟨le_refl st.y, le_of_lt hlt⟩, Nat.sub_self] at h1
          unfold backspaceSelMulti at h1
          rw [if_neg (by omega)] at h1
          have hsty2 : st.y < content2.length := by omega
          have hl2 := List.getElem?_eq_getElem hsty2
          rw [hl2] at h1
          obtain ⟨hsx, _, hshape⟩ := drainO_eq_some.mp h1.symm
          have hl2len : (content2[st.y]).length = st.x := by
            rw [hshape]
            simp only [List.length_append, List.length_take, List.length_drop]
            omega
          have hlineB : (s.editor_content[st.y]).length ≤ 32766 :=
            hLines _ (List.getElem?_mem (List.getElem?_eq_getElem hsty))
          rw [recompute_visual_some h]
          refine ⟨?_, ?_, ?_, ?_⟩
          · show (0 : Int) ≤ i16OfNat st.x
            rw [i16OfNat_small (by omega)]
            positivity
          · show (0 : Int) ≤ i16OfNat st.y
            rw [i16OfNat_small (by omega)]
            positivity
          · show (i16OfNat st.y : Int) < (content2.length : Int)
            rw [i16OfNat_small (by omega)]
            omega
          · show (i16OfNat st.x : Int) ≤
              (lineLenAt content2 (i16OfNat st.y).toNat : Int)
            rw [i16OfNat_small (by omega), i16OfNat_small (by omega),
              Int.toNat_ofNat]
            unfold lineLenAt
            rw [hl2]
            simp only [Option.getD_some]
            omega
        · obtain ⟨line, line2, hgl, hsingle, rfl⟩ :=
            applySelTransform_single (le_of_eq heq.symm) hA
          obtain ⟨hsx, hex, hshape⟩ := drainO_eq_some.mp hsingle
          have hsty : st.y < s.editor_content.length := getElem?_some_lt hgl
          have hlineB : line.length ≤ 32766 :=
            hLines line (List.getElem?_mem hgl)
          have hl2len : line2.length = st.x + (line.length - en.x) := by
            rw [hshape]
            simp only [List.length_append, List.length_take, List.length_drop]
            omega
          rw [recompute_visual_some h]
          refine ⟨?_, ?_, ?_, ?_⟩
          · show (0 : Int) ≤ i16OfNat st.x
            rw [i16OfNat_small (by omega)]
            positivity
          · show (0 : Int) ≤ i16OfNat st.y
            rw [i16OfNat_small (by omega)]
            positivity
          · show (i16OfNat st.y : Int) <
              ((s.editor_content.set st.y line2).length : Int)
            rw [i16OfNat_small (by omega), List.length_set]
            omega
          · show (i16OfNat st.x : Int) ≤
              (lineLenAt (s.editor_content.set st.y line2)
                (i16OfNat st.y).toNat : Int)
            rw [i16OfNat_small (by omega), i16OfNat_small (by omega),
              Int.toNat_ofNat]
            unfold lineLenAt
            rw [List.getElem?_set_eq_of_lt _ (by omega)]
            simp only [Option.getD_some]
            omega

theorem delete_sel_inv {s t : AppState}
    (hSel : selWellFormed s) (hSmall : smallState s)
    (h : delete_in_editor_text_is_selected s = some t) : cursorInvariant t := by
  obtain ⟨hLen, hLines⟩ := hSmall
  unfold delete_in_editor_text_is_selected at h
  unfold selWellFormed at hSel
  rcases hst : s.text_selection_start with _ | st
  · rw [hst] at h
    simp only [] at h
    exact Option.noConfusion h
  · rcases hen : s.text_selection_end with _ | en
    · rw [hst, hen] at h
      simp only [] at h
      exact Option.noConfusion h
    · rw [hst, hen] at h
      simp only [] at h
      rw [hst, hen] at hSel
      simp only [selPairOk] at hSel
      rcases hA : applySelTransform s.editor_content st en
          (deleteSelMulti st en) (fun line => fillO st.x en.x ' ' line) with
        _ | content2
      · rw [hA] at h
        exact Option.noConfusion h
      · rw [hA] at h
        simp only [] at h
        rcases hSel with hlt | ⟨heq, hxe⟩
        · obtain ⟨henlt, hlen2, hget⟩ := applySelTransform_multi hlt hA
          have h1 := hget en.y
          rw [List.getElem?_eq_getElem henlt] at h1
          simp only [Option.some_bind] at h1
          rw [if_pos ⟨le_of_lt hlt, le_refl en.y⟩] at h1
          unfold deleteSelMulti at h1
          rw [if_pos rfl] at h1
          have heny2 : en.y < content2.length := by omega
          have hl2 := List.getElem?_eq_getElem heny2
          rw [hl2] at h1
          obtain ⟨_, hexle, hshape⟩ := fillO_eq_some.mp h1.symm
          have hl2len : (content2[en.y]).length =
              (s.editor_content[en.y]).length := by
            rw [hshape]
            simp only [List.length_append, List.length_take, List.length_drop,
              List.length_replicate]
            omega
          have hlineB : (s.editor_content[en.y]).length ≤ 32766 :=
            hLines _ (List.getElem?_mem (List.getElem?_eq_getElem henlt))
          rw [recompute_visual_some h]
          refine ⟨?_, ?_, ?_, ?_⟩
          · show (0 : Int) ≤ i16OfNat en.x
            rw [i16OfNat_small (by omega)]
            positivity
          · show (0 : Int) ≤ i16OfNat en.y
            rw [i16OfNat_small (by omega)]
            positivity
          · show (i16OfNat en.y : Int) < (content2.length : Int)
            rw [i16OfNat_small (by omega)]
            omega
          · show (i16OfNat en.x : Int) ≤
              (lineLenAt content2 (i16OfNat en.y).toNat : Int)
            rw [i16OfNat_small (by omega), i16OfNat_small (by omega),
              Int.toNat_ofNat]
            unfold lineLenAt
            rw [hl2]
            simp only [Option.getD_some]
            omega
        · obtain ⟨line, line2, hgl, hsingle, rfl⟩ :=
            applySelTransform_single (le_of_eq heq.symm) hA
          obtain ⟨hsx, hex, hshape⟩ := fillO_eq_some.mp hsingle
          have hsty : st.y < s.editor_content.length := getElem?_some_lt hgl
          have hlineB : line.length ≤ 32766 :=
            hLines line (List.getElem?_mem hgl)
          have hl2len : line2.length = line.length := by
            rw [hshape]
            simp only [List.length_append, List.length_take, List.length_drop,
              List.length_replicate]
            omega
          rw [recompute_visual_some h]
          refine ⟨?_, ?_, ?_, ?_⟩
          · show (0 : Int) ≤ i16OfNat en.x
            rw [i16OfNat_small (by omega)]
            positivity
          · show (0 : Int) ≤ i16OfNat en.y
            rw [i16OfNat_small (by omega)]
            positivity
          · show (i16OfNat en.y : Int) <
              ((s.editor_content.set st.y line2).length : Int)
            rw [i16OfNat_small (by omega), List.length_set]
            omega
          · show (i16OfNat en.x : Int) ≤
              (lineLenAt (s.editor_content.set st.y line2)
                (i16OfNat en.y).toNat : Int)
            rw [i16OfNat_small (by omega), i16OfNat_small (by omega),
              Int.toNat_ofNat, ← heq]
            unfold lineLenAt
            rw [List.getElem?_set_eq_of_lt _ (by omega)]
            simp only [Option.getD_some]
            omega

theorem write_sel_inv {s t : AppState} {c : Char}
    (hSel : selWellFormed s) (hSmall : smallState s)
    (h : write_char_in_editor_text_is_selected s c = some t) :
    cursorInvariant t := by
  obtain ⟨hLen, hLines⟩ := hSmall
  unfold write_char_in_editor_text_is_selected at h
  unfold selWellFormed at hSel
  rcases hst : s.text_selection_start with _ | st
  · rw [hst] at h
    simp only [] at h
    exact Option.noConfusion h
  · rcases hen : s.text_selection_end with _ | en
    · rw [hst, hen] at h
      simp only [] at h
      exact Option.noConfusion h
    · rw [hst, hen] at h
      simp only [] at h
      rw [hst, hen] at hSel
      simp only [selPairOk] at hSel
      rcases hA : applySelTransform s.editor_content st en
          (writeSelMulti c st en)
          (fun line =>
            match drainO st.x en.x line with
            | none => none
            | some l1 => insertO st.x c l1) with _ | content2
      · rw [hA] at h
        exact Option.noConfusion h
      · rw [hA] at h
        simp only [] at h
        rcases hSel with hlt | ⟨heq, hxe⟩
        · obtain ⟨henlt, hlen2, hget⟩ := applySelTransform_multi hlt hA
          have hsty : st.y < s.editor_content.length := by omega
          have hLines2 : linesBounded content2 32767 := by
            intro l hl
            obtain ⟨i, hi⟩ := List.mem_iff_getElem?.mp hl
            have h2 := hget i
            rw [hi] at h2
            rcases hcl : s.editor_content[i]? with _ | lineI
            · rw [hcl] at h2
              exact Option.noConfusion h2
            · rw [hcl] at h2
              simp only [Option.some_bind] at h2
              have hIB : lineI.length ≤ 32766 :=
                hLines lineI (List.getElem?_mem hcl)
              split at h2
              · have := writeSelMulti_len h2.symm
                omega
              · rw [Option.some_inj.mp h2]
                omega
          refine move_horiz_inv ?_ ?_ ?_ ?_ h
          · show (0 : Int) ≤ i16OfNat st.y
            rw [i16OfNat_small (by omega)]
            positivity
          · show (i16OfNat st.y : Int) < (content2.length : Int)
            rw [i16OfNat_small (by omega)]
            omega
          · show content2.length ≤ 32767
            omega
          · exact hLines2
        · obtain ⟨line, line2, hgl, hsingle, rfl⟩ :=
            applySelTransform_single (le_of_eq heq.symm) hA
          have hsty : st.y < s.editor_content.length := getElem?_some_lt hgl
          have hlineB : line.length ≤ 32766 :=
            hLines line (List.getElem?_mem hgl)
          have hl2len : line2.length ≤ line.length + 1 := by
            split at hsingle
            · exact Option.noConfusion hsingle
            · rename_i l1 hl1
              obtain ⟨_, _, hs1⟩ := drainO_eq_some.mp hl1
              obtain ⟨_, hs2⟩ := insertO_eq_some.mp hsingle
              rw [hs2, hs1]
              simp only [List.length_append, List.length_cons,
                List.length_take, List.length_drop]
              omega
          refine move_horiz_inv ?_ ?_ ?_ ?_ h
          · show (0 : Int) ≤ i16OfNat st.y
            rw [i16OfNat_small (by omega)]
            positivity
          · show (i16OfNat st.y : Int) <
              ((s.editor_content.set st.y line2).length : Int)
            rw [i16OfNat_small (by omega), List.length_set]
            omega
          · show (s.editor_content.set st.y line2).length ≤ 32767
            rw [List.length_set]
            omega
          · show linesBounded (s.editor_content.set st.y line2) 32767
            exact linesBounded_set
              (fun l hl => le_trans (hLines l hl) (by omega)) (by omega)

theorem cursorInvariant_mk {s : AppState} {C2 : List (List Char)}
    (hx0 : 0 ≤ s.cursor_x) (hy0 : 0 ≤ s.cursor_y)
    (h3 : s.cursor_y < (C2.length : Int))
    (h4 : s.cursor_x ≤ (lineLenAt C2 s.cursor_y.toNat : Int)) :
    cursorInvariant { s with editor_content := C2 } :=
  ⟨hx0, hy0, h3, h4⟩

theorem lineLenAt_splice {C rest : List (List Char)} {i : Nat} {l : List Char}
    (hi : i ≤ C.length) :
    lineLenAt (C.take i ++ (l :: rest) ++ C.drop (i + 1)) i = l.length := by
  unfold lineLenAt
  rw [List.getElem?_append_left
      (by
        simp only [List.length_append, List.length_take, List.length_cons]
        omega),
    List.getElem?_append_right (List.length_take_le _ _)]
  simp only [List.length_take]
  rw [Nat.min_eq_left hi, Nat.sub_self, List.getElem?_cons_zero]
  rfl

theorem copy_preserves {s t : AppState} (h : copy_selected_text s = some t) :
    t = { s with copied_text := t.copied_text } := by
  simp only [copy_selected_text] at h
  split at h
  · split at h
    · split at h
      · split at h
        · exact Option.noConfusion h
        · rw [← Option.some_inj.mp h]
      · split at h
        · exact Option.noConfusion h
        · split at h
          · rw [← Option.some_inj.mp h]
          · exact Option.noConfusion h
    · exact Option.noConfusion h
  · rw [← Option.some_inj.mp h]

theorem paste_inv {s t : AppState}
    (hInv : cursorInvariant s) (hSmall : smallState s)
    (h : paste_selected_text s = some t) : cursorInvariant t := by
  obtain ⟨hx0, hy0, hylt, hxle⟩ := hInv
  obtain ⟨hLen, hLines⟩ := hSmall
  have hxB : s.cursor_x ≤ 32766 := by
    have := lineLenAt_bounded (i := s.cursor_y.toNat) hLines
    omega
  simp only [paste_selected_text] at h
  split at h
  · rw [← Option.some_inj.mp h]
    exact ⟨hx0, hy0, hylt, hxle⟩
  · split at h
    · exact Option.noConfusion h
    · by_cases hpad :
        s.editor_content.length < s.cursor_y.toNat + s.copied_text.length - 1
      · rw [if_pos hpad] at h
        split at h
        · exact Option.noConfusion h
        · rename_i cur hcurC
          unfold lineAt at hcurC
          rw [List.getElem?_append_left (by omega)] at hcurC
          have hcurlen : lineLenAt s.editor_content s.cursor_y.toNat =
              cur.length := by
            unfold lineLenAt
            rw [hcurC]
            rfl
          split at h
          · rw [← Option.some_inj.mp h]
            refine cursorInvariant_mk hx0 hy0 ?_ ?_
            · simp only [List.length_set, List.length_append,
                List.length_replicate]
              omega
            · unfold lineLenAt
              rw [List.getElem?_set_eq_of_lt _
                (by
                  simp only [List.length_append, List.length_replicate]
                  omega)]
              simp only [Option.getD_some, List.length_append, List.length_take,
                List.length_drop]
              rw [usizeCast_nonneg hx0 (by omega)]
              omega
          · rw [← Option.some_inj.mp h]
            refine cursorInvariant_mk hx0 hy0 ?_ ?_
            · simp only [List.length_append, List.length_take, List.length_cons,
                List.length_drop, List.length_nil, List.length_replicate]
              omega
            · rw [lineLenAt_splice
                (by
                  simp only [List.length_append, List.length_replicate]
                  omega)]
              simp only [List.length_append, List.length_take]
              rw [usizeCast_nonneg hx0 (by omega)]
              omega
      · rw [if_neg hpad] at h
        split at h
        · exact Option.noConfusion h
        · rename_i cur hcurC
          unfold lineAt at hcurC
          have hcurlen : lineLenAt s.editor_content s.cursor_y.toNat =
              cur.length := by
            unfold lineLenAt
            rw [hcurC]
            rfl
          split at h
          · rw [← Option.some_inj.mp h]
            refine cursorInvariant_mk hx0 hy0 ?_ ?_
            · rw [List.length_set]
              omega
            · unfold lineLenAt
              rw [List.getElem?_set_eq_of_lt _ (by omega)]
              simp only [Option.getD_some, List.length_append, List.length_take,
                List.length_drop]
              rw [usizeCast_nonneg hx0 (by omega)]
              omega
          · rw [← Option.some_inj.mp h]
            refine cursorInvariant_mk hx0 hy0 ?_ ?_
            · simp only [List.length_append, List.length_take, List.length_cons,
                List.length_drop, List.length_nil]
              omega
            · rw [lineLenAt_splice (by omega)]
              simp only [List.length_append, List.length_take]
              rw [usizeCast_nonneg hx0 (by omega)]
              omega

theorem move_selection_fields {s t : AppState} {x y : Int}
    (h : move_selection_cursor s x y = some t) :
    ∃ s1, move_cursor_in_editor s x y = some s1 ∧
      t.editor_content = s1.editor_content ∧ t.cursor_x = s1.cursor_x ∧
      t.cursor_y = s1.cursor_y := by
  simp only [move_selection_cursor] at h
  split at h
  · exact Option.noConfusion h
  · rename_i s1 hs1
    refine ⟨s1, hs1, ?_⟩
    by_cases hA : x > 0 ∨ y > 0
    · rw [if_pos hA] at h
      by_cases hB : s1.text_selection_start.isNone = true
      · rw [if_pos hB] at h
        split at h
        · split at h <;>
          · rw [← Option.some_inj.mp h]
            exact ⟨rfl, rfl, rfl⟩
        · rw [← Option.some_inj.mp h]
          exact ⟨rfl, rfl, rfl⟩
      · rw [if_neg hB] at h
        split at h
        · split at h <;>
          · rw [← Option.some_inj.mp h]
            exact ⟨rfl, rfl, rfl⟩
        · rw [← Option.some_inj.mp h]
          exact ⟨rfl, rfl, rfl⟩
    · rw [if_neg hA] at h
      split at h
      · split at h <;>
        · rw [← Option.some_inj.mp h]
          exact ⟨rfl, rfl, rfl⟩
      · rw [← Option.some_inj.mp h]
        exact ⟨rfl, rfl, rfl⟩

/-- C8 as amended: after every edit operation (insert character,
backspace, delete, tab, newline, cut, paste, copy — with or without an
active selection) and every cursor-model call with the unit single-axis
deltas the input layer dispatches, a cursor that satisfied the bounds
invariant `0 ≤ x ≤ char_count(y)` and `0 ≤ y < line_count` before the
operation still satisfies it on the current buffer afterwards — provided
the stored selection, if any, is in document order (and the buffer is
`i16`-representable).  The document-order proviso is forced: with an
out-of-order stored pair, which extending motions can produce,
delete-with-selection breaks the bound (see the C8 counterexample). -/
theorem C8_amended (op : EditOp) (s t : AppState)
    (hInv : cursorInvariant s) (hSel : selWellFormed s) (hSmall : smallState s)
    (hop : opOk op) (h : applyEditOp op s = some t) :
    cursorInvariant t := by
  cases op with
  | insertChar c =>
      simp only [applyEditOp, write_all_char_in_editor] at h
      split at h
      · exact write_sel_inv hSel hSmall h
      · exact write_char_inv hInv hSmall h
  | backspace =>
      simp only [applyEditOp, backspace_all_in_editor] at h
      split at h
      · exact backspace_sel_inv hSel hSmall h
      · exact backspace_point_inv hInv hSmall h
  | del =>
      simp only [applyEditOp, delete_all_in_editor] at h
      split at h
      · exact delete_sel_inv hSel hSmall h
      · exact delete_point_inv hInv hSmall h
  | tabKey => exact tab_inv hInv hSmall h
  | newline => exact enter_inv hInv hSmall h
  | cutOp =>
      simp only [applyEditOp, cut_selected_text] at h
      split at h
      · split at h
        · exact Option.noConfusion h
        · rename_i s1 hcopy
          have hp := copy_preserves hcopy
          refine backspace_sel_inv ?_ ?_ h
          · unfold selWellFormed
            rw [hp]
            exact hSel
          · unfold smallState
            rw [hp]
            exact hSmall
      · exact Option.noConfusion h
  | pasteOp => exact paste_inv hInv hSmall h
  | copyOp =>
      rw [copy_preserves h]
      exact ⟨hInv.1, hInv.2.1, hInv.2.2.1, hInv.2.2.2⟩
  | moveCursor dx dy =>
      exact move_inv hInv (by obtain ⟨hL, hB⟩ := hSmall; omega)
        (fun l hl => le_trans (hSmall.2 l hl) (by omega)) hop.1 hop.2 h
  | moveSelection dx dy =>
      obtain ⟨s1, hs1, he, hx, hy⟩ := move_selection_fields h
      have hi1 := move_inv hInv (by obtain ⟨hL, hB⟩ := hSmall; omega)
        (fun l hl => le_trans (hSmall.2 l hl) (by omega)) hop.1 hop.2 hs1
      exact ⟨by rw [hx]; exact hi1.1, by rw [hy]; exact hi1.2.1,
        by rw [hy, he]; exact hi1.2.2.1, by rw [hx, hy, he]; exact hi1.2.2.2⟩

/-- Witness for C8 at a concrete state and operation. -/
theorem C8_amended_witness :
    cursorInvariant (mkState ["ab"] 1 0) :=
  C8_amended .copyOp (mkState ["ab"] 1 0) (mkState ["ab"] 1 0)
    (by decide) (by decide) (by decide) trivial (by decide)

/-- C8 fails as stated: a sequence of edit operations from a pristine
two-line buffer reaches a state whose stored selection is out of document
order (shift-right three times and shift-left three times store
`start = (0,0)`, `end = (3,0)`; Enter at `(0,0)` empties the first line
and leaves the selection untouched; a raw down motion and a shift-up then
store `start = (0,1)` while `end` stays `(3,0)`).  The reached state
still satisfies the cursor bounds, yet delete-with-selection succeeds on
it through the empty-slice `start.y..=end.y` path (filling `[0,3)` of
line 1) and lands the cursor at the stored end `(3,0)` on the emptied
first line: `x = 3` exceeds `char_count(y) = 0` right after an edit
operation. -/
theorem C8_counterexample :
    ((applyEditOps
        [.moveSelection 1 0, .moveSelection 1 0, .moveSelection 1 0,
         .moveSelection (-1) 0, .moveSelection (-1) 0, .moveSelection (-1) 0,
         .newline, .moveCursor 0 1, .moveSelection 0 (-1)]
        (mkState ["abcd", "xyz"] 0 0)).map
      (fun s => decide (cursorInvariant s))) = some true ∧
    ((applyEditOps
        [.moveSelection 1 0, .moveSelection 1 0, .moveSelection 1 0,
         .moveSelection (-1) 0, .moveSelection (-1) 0, .moveSelection (-1) 0,
         .newline, .moveCursor 0 1, .moveSelection 0 (-1)]
        (mkState ["abcd", "xyz"] 0 0)).map
      (fun s => (s.text_selection_start, s.text_selection_end))) =
      some (some ⟨0, 1⟩, some ⟨3, 0⟩) ∧
    (((applyEditOps
        [.moveSelection 1 0, .moveSelection 1 0, .moveSelection 1 0,
         .moveSelection (-1) 0, .moveSelection (-1) 0, .moveSelection (-1) 0,
         .newline, .moveCursor 0 1, .moveSelection 0 (-1)]
        (mkState ["abcd", "xyz"] 0 0)).bind (applyEditOp .del)).map
      (fun t => (t.cursor_x, t.cursor_y,
        lineLenAt t.editor_content t.cursor_y.toNat,
        decide (cursorInvariant t)))) = some (3, 0, 0, false) ∧
    ¬((3 : Int) ≤ 0) :=
  ⟨by decide, by decide, by decide, by decide⟩

/-- C10 as amended: with two exceptions — the early-returned blocked
up-motion (`cursor.y = 0` with `dy = -1`, which returns the state
unchanged without touching the buffer) and the non-terminating padding
loop when `cursor.y + dy < 0` (no state is produced) — every cursor-move
call first pads the buffer with empty lines until the destination index
`cursor.y + dy` is a valid buffer index: the resulting buffer is exactly
the padded buffer, the destination index is in range, and this happens
for any motion, including purely horizontal ones, so a `dy = 0` move on a
buffer with `line_count ≤ cursor.y` mutates (grows) the buffer. -/
theorem C10_amended (s : AppState) (x y : Int) :
    (s.cursor_y = 0 ∧ y = -1 → move_cursor_in_editor s x y = some s) ∧
    (∀ t, move_cursor_in_editor s x y = some t →
      ¬(s.cursor_y = 0 ∧ y = -1) →
      t.editor_content =
        extendLinesUntilGt s.editor_content (s.cursor_y + y).toNat ∧
      (s.cursor_y + y).toNat < t.editor_content.length) ∧
    (∀ t, move_cursor_in_editor s x y = some t →
      s.editor_content.length ≤ s.cursor_y.toNat → y = 0 →
      s.editor_content.length < t.editor_content.length) := by
  refine ⟨?_, ?_, ?_⟩
  · intro hc
    simp only [move_cursor_in_editor]
    rw [if_pos hc]
  · intro t h hne
    have hc := move_content h hne
    refine ⟨hc, ?_⟩
    rw [hc, extendLines_length]
    omega
  · intro t h hbig hy0
    subst hy0
    have hc := move_content h (fun hc => absurd hc.2 (by decide))
    rw [hc, extendLines_length]
    omega

/-- Witness for C10: a purely horizontal move on a buffer whose cursor
line is beyond the end grows the buffer. -/
theorem C10_amended_witness :
    (mkState ["a"] 0 5).editor_content.length <
      (mkState ["a", "", "", "", "", ""] 0 5).editor_content.length :=
  (C10_amended (mkState ["a"] 0 5) 0 0).2.2
    (mkState ["a", "", "", "", "", ""] 0 5) (by decide) (by decide) rfl

/-- C7 as amended: for a state satisfying the cursor invariant on an
`i16`-representable buffer, cursor motion obeys the boundary rules:
moving right at end-of-line with a line below wraps to `(y+1, 0)`;
moving right at end-of-line with no line below leaves the cursor in
place at the line's maximum `x`; moving left at `x = 0` with `y > 0`
wraps to `(y-1, char_count(y-1))`; moving left at `(0,0)` leaves the
cursor at `(0,0)`; moving up from the first line returns the state
unchanged; `y` never becomes negative; moving down from the last line
appends an empty line to the buffer; and a vertical motion clamps `x` to
the destination line's character count and steps `y` — except at the
scroll-band edge, where the cursor is left untouched and only
`scroll_offset` moves. -/
theorem C7_amended (s : AppState)
    (hInv : cursorInvariant s) (hSmall : smallState s) :
    (∀ t, move_cursor_in_editor s 1 0 = some t →
      s.cursor_x = (lineLenAt s.editor_content s.cursor_y.toNat : Int) →
      s.cursor_y.toNat + 1 < s.editor_content.length →
      t.cursor_x = 0 ∧ t.cursor_y = s.cursor_y + 1) ∧
    (∀ t, move_cursor_in_editor s 1 0 = some t →
      s.cursor_x = (lineLenAt s.editor_content s.cursor_y.toNat : Int) →
      s.editor_content.length = s.cursor_y.toNat + 1 →
      t.cursor_x = s.cursor_x ∧ t.cursor_y = s.cursor_y) ∧
    (∀ t, move_cursor_in_editor s (-1) 0 = some t →
      s.cursor_x = 0 → 0 < s.cursor_y →
      t.cursor_x = (lineLenAt s.editor_content (s.cursor_y - 1).toNat : Int) ∧
      t.cursor_y = s.cursor_y - 1) ∧
    (∀ t, move_cursor_in_editor s (-1) 0 = some t →
      s.cursor_x = 0 → s.cursor_y = 0 →
      t.cursor_x = 0 ∧ t.cursor_y = 0) ∧
    (s.cursor_y = 0 → ∀ x, move_cursor_in_editor s x (-1) = some s) ∧
    (∀ t x y, (x = 0 ∨ y = 0) → (y = -1 ∨ y = 0 ∨ y = 1) →
      move_cursor_in_editor s x y = some t → 0 ≤ t.cursor_y) ∧
    (∀ t, move_cursor_in_editor s 0 1 = some t →
      s.editor_content.length = s.cursor_y.toNat + 1 →
      t.editor_content.length = s.editor_content.length + 1) ∧
    (∀ t y, (y = -1 ∨ y = 1) → ¬(s.cursor_y = 0 ∧ y = -1) →
      move_cursor_in_editor s 0 y = some t →
      (¬((y = 1 ∧ s.cursor_y = s.scroll_offset + (s.terminal_height - 2)) ∨
         (y = -1 ∧ s.cursor_y = s.scroll_offset)) →
        t.cursor_x = max 0 (min s.cursor_x
          (lineLenAt
            (extendLinesUntilGt s.editor_content (s.cursor_y + y).toNat)
            (s.cursor_y + y).toNat : Int)) ∧
        t.cursor_y = s.cursor_y + y) ∧
      (((y = 1 ∧ s.cursor_y = s.scroll_offset + (s.terminal_height - 2)) ∨
        (y = -1 ∧ s.cursor_y = s.scroll_offset)) →
        t.cursor_x = s.cursor_x ∧ t.cursor_y = s.cursor_y ∧
        t.scroll_offset = clampI16 (s.scroll_offset + y))) := by
  obtain ⟨hx0, hy0, hylt, hxle⟩ := hInv
  obtain ⟨hLen, hLines⟩ := hSmall
  have hcast : usizeCast s.cursor_y = s.cursor_y.toNat :=
    usizeCast_nonneg hy0 (by omega)
  have hyltN : s.cursor_y.toNat < s.editor_content.length := by omega
  have hmaxc : i16OfNat (lineLenAt s.editor_content s.cursor_y.toNat) =
      (lineLenAt s.editor_content s.cursor_y.toNat : Int) :=
    i16OfNat_small (le_trans (lineLenAt_bounded hLines) (by omega))
  have hsome : lineAt s.editor_content s.cursor_y.toNat =
      some (s.editor_content[s.cursor_y.toNat]) := by
    unfold lineAt
    exact List.getElem?_eq_getElem hyltN
  have hcurB : (s.editor_content[s.cursor_y.toNat]).length ≤ 32766 :=
    hLines _ (List.getElem?_mem (List.getElem?_eq_getElem hyltN))
  have hcurlen : lineLenAt s.editor_content s.cursor_y.toNat =
      (s.editor_content[s.cursor_y.toNat]).length := by
    unfold lineLenAt
    rw [List.getElem?_eq_getElem hyltN]
    rfl
  refine ⟨?_, ?_, ?_, ?_, ?_, ?_, ?_, ?_⟩
  · intro t h hx hbelow
    simp only [move_cursor_in_editor, add_zero] at h
    rw [if_neg (by omega), if_neg (by omega), extendLines_eq (by omega),
      if_neg (by rw [hmaxc]; omega), if_pos trivial, hcast, hsome] at h
    simp only [] at h
    rw [if_pos ⟨by rw [i16OfNat_small (by omega)]; omega, by omega⟩] at h
    rw [recompute_visual_some h]
    exact ⟨rfl, rfl⟩
  · intro t h hx hnob
    simp only [move_cursor_in_editor, add_zero] at h
    rw [if_neg (by omega), if_neg (by omega), extendLines_eq (by omega),
      if_neg (by rw [hmaxc]; omega), if_pos trivial, hcast, hsome] at h
    simp only [] at h
    rw [if_neg (by omega)] at h
    unfold moveLeftPart at h
    simp only [] at h
    rw [if_neg (by omega), if_neg (by omega)] at h
    unfold moveTail at h
    simp only [] at h
    rw [if_neg (by omega), if_neg (by rw [hmaxc]; omega)] at h
    rw [recompute_visual_some h]
    constructor
    · show max 0 (min s.cursor_x
        (i16OfNat (lineLenAt s.editor_content s.cursor_y.toNat))) = s.cursor_x
      rw [hmaxc]
      omega
    · show clampI16 (s.cursor_y + 0) = s.cursor_y
      rw [clampI16_eq (by omega) (by omega)]
      omega
  · intro t h hx hygt
    simp only [move_cursor_in_editor, add_zero] at h
    rw [if_neg (by omega), if_neg (by omega), extendLines_eq (by omega),
      if_neg (by omega), if_neg (by omega)] at h
    unfold moveLeftPart at h
    simp only [] at h
    rw [if_neg (by omega)] at h
    rw [if_pos ⟨hx, trivial, by omega⟩] at h
    have hcast2 : usizeCast (s.cursor_y - 1) = (s.cursor_y - 1).toNat :=
      usizeCast_nonneg (by omega) (by omega)
    have hylt2 : (s.cursor_y - 1).toNat < s.editor_content.length := by omega
    have hsome2 : lineAt s.editor_content (s.cursor_y - 1).toNat =
        some (s.editor_content[(s.cursor_y - 1).toNat]) := by
      unfold lineAt
      exact List.getElem?_eq_getElem hylt2
    rw [hcast2, hsome2] at h
    simp only [] at h
    rw [recompute_visual_some h]
    constructor
    · show i16OfNat (s.editor_content[(s.cursor_y - 1).toNat]).length =
        (lineLenAt s.editor_content (s.cursor_y - 1).toNat : Int)
      have hpb : (s.editor_content[(s.cursor_y - 1).toNat]).length ≤ 32766 :=
        hLines _ (List.getElem?_mem (List.getElem?_eq_getElem hylt2))
      rw [i16OfNat_small (by omega)]
      unfold lineLenAt
      rw [List.getElem?_eq_getElem hylt2]
      rfl
    · exact rfl
  · intro t h hx hy00
    simp only [move_cursor_in_editor, add_zero] at h
    rw [if_neg (by omega), if_neg (by omega), extendLines_eq (by omega),
      if_neg (by omega), if_neg (by omega)] at h
    unfold moveLeftPart at h
    simp only [] at h
    rw [if_neg (by omega), if_neg (by omega)] at h
    unfold moveTail at h
    simp only [] at h
    rw [if_neg (by omega), if_neg (by rw [hmaxc]; omega)] at h
    rw [recompute_visual_some h]
    constructor
    · show max 0 (min s.cursor_x
        (i16OfNat (lineLenAt s.editor_content s.cursor_y.toNat))) = 0
      rw [hmaxc]
      omega
    · show clampI16 (s.cursor_y + 0) = 0
      rw [clampI16_eq (by omega) (by omega)]
      omega
  · intro hy00 x
    simp only [move_cursor_in_editor]
    rw [if_pos ⟨hy00, trivial⟩]
  · intro t x y hax hy1 h
    exact (move_inv ⟨hx0, hy0, hylt, hxle⟩ (by omega)
      (fun l hl => le_trans (hLines l hl) (by omega)) hax hy1 h).2.1
  · intro t h hlast
    have hc := move_content h (fun hc => absurd hc.2 (by decide))
    rw [hc, extendLines_length]
    omega
  · intro t y hy1 hne h
    simp only [move_cursor_in_editor] at h
    rw [if_neg hne, if_neg (by omega), if_neg (by omega),
      if_neg (by omega)] at h
    unfold moveLeftPart at h
    simp only [] at h
    rw [if_neg (by omega), if_neg (by omega)] at h
    unfold moveTail at h
    simp only [] at h
    have hmax2 : i16OfNat (lineLenAt
        (extendLinesUntilGt s.editor_content (s.cursor_y + y).toNat)
        (s.cursor_y + y).toNat) =
        (lineLenAt (extendLinesUntilGt s.editor_content (s.cursor_y + y).toNat)
          (s.cursor_y + y).toNat : Int) :=
      i16OfNat_small
        (le_trans (lineLenAt_bounded (extendLines_linesBounded hLines))
          (by omega))
    constructor
    · intro hband
      rw [if_neg hband, if_neg (by rw [hmax2]; omega)] at h
      rw [recompute_visual_some h]
      constructor
      · show max 0 (min s.cursor_x
          (i16OfNat (lineLenAt
            (extendLinesUntilGt s.editor_content (s.cursor_y + y).toNat)
            (s.cursor_y + y).toNat))) =
          max 0 (min s.cursor_x
            (lineLenAt
              (extendLinesUntilGt s.editor_content (s.cursor_y + y).toNat)
              (s.cursor_y + y).toNat : Int))
        rw [hmax2]
      · show clampI16 (s.cursor_y + y) = s.cursor_y + y
        exact clampI16_eq (by omega) (by omega)
    · intro hband
      rw [if_pos hband] at h
      rw [← Option.some_inj.mp h]
      exact ⟨rfl, rfl, rfl⟩

/-- Witness for C7: an up-motion from the first line returns the state
unchanged. -/
theorem C7_amended_witness :
    move_cursor_in_editor (mkState ["ab"] 1 0) 2 (-1) = some (mkState ["ab"] 1 0) :=
  (C7_amended (mkState ["ab"] 1 0) (by decide) (by decide)).2.2.2.2.1 rfl 2

end CalliGlyph
